import Mathlib

set_option maxRecDepth 10000

/-!
Verification of the bookmark format converter (`main.py`).

The source converts browser bookmarks between a markup dialect (the
Netscape bookmark HTML format) and JSON.  The pure conversion core —
`parse_bookmark_folder`, `parse_bookmark_link`, `parse_bookmark_list`,
`html_to_json`, `build_folder_html`, `build_link_html`,
`build_bookmark_html`, `json_to_html` — is embedded shallowly below.
External capabilities the source calls (the standard `json` codec and the
lenient `BeautifulSoup`/`lxml` markup parser) are modelled from their
documented behaviour; every such model is marked in its doc comment.
-/

namespace Bookmarks

/-- Model of the Python values the converter manipulates: decoded JSON
values (output of `json.loads`) and the dictionaries built by the parser.
Python dicts are insertion-ordered key/value sequences; JSON numbers keep
their lexeme. -/
inductive JVal where
  | null
  | bool (b : Bool)
  | num (lexeme : String)
  | str (s : String)
  | arr (elems : List JVal)
  | obj (fields : List (String × JVal))
deriving Repr

mutual
/-- Structural equality of values (Python `==` on decoded JSON data). -/
def beqJVal : JVal → JVal → Bool
  | .null, .null => true
  | .bool a, .bool b => a == b
  | .num a, .num b => a == b
  | .str a, .str b => a == b
  | .arr a, .arr b => beqJList a b
  | .obj a, .obj b => beqJFields a b
  | _, _ => false

def beqJList : List JVal → List JVal → Bool
  | [], [] => true
  | a :: as, b :: bs => beqJVal a b && beqJList as bs
  | _, _ => false

def beqJFields : List (String × JVal) → List (String × JVal) → Bool
  | [], [] => true
  | (k₁, v₁) :: as, (k₂, v₂) :: bs => k₁ == k₂ && beqJVal v₁ v₂ && beqJFields as bs
  | _, _ => false
end

instance : BEq JVal := ⟨beqJVal⟩

mutual
theorem beqJVal_iff : ∀ a b, beqJVal a b = true ↔ a = b
  | .null, .null => by simp [beqJVal]
  | .bool a, .bool b => by simp [beqJVal]
  | .num a, .num b => by simp [beqJVal]
  | .str a, .str b => by simp [beqJVal]
  | .arr a, .arr b => by simp [beqJVal, beqJList_iff a b]
  | .obj a, .obj b => by simp [beqJVal, beqJFields_iff a b]
  | .null, .bool _ | .null, .num _ | .null, .str _ | .null, .arr _ | .null, .obj _
  | .bool _, .null | .bool _, .num _ | .bool _, .str _ | .bool _, .arr _ | .bool _, .obj _
  | .num _, .null | .num _, .bool _ | .num _, .str _ | .num _, .arr _ | .num _, .obj _
  | .str _, .null | .str _, .bool _ | .str _, .num _ | .str _, .arr _ | .str _, .obj _
  | .arr _, .null | .arr _, .bool _ | .arr _, .num _ | .arr _, .str _ | .arr _, .obj _
  | .obj _, .null | .obj _, .bool _ | .obj _, .num _ | .obj _, .str _ | .obj _, .arr _ => by
      simp [beqJVal]

theorem beqJList_iff : ∀ a b, beqJList a b = true ↔ a = b
  | [], [] => by simp [beqJList]
  | a :: as, b :: bs => by
      simp [beqJList, beqJVal_iff a b, beqJList_iff as bs]
  | [], _ :: _ => by simp [beqJList]
  | _ :: _, [] => by simp [beqJList]

theorem beqJFields_iff : ∀ a b, beqJFields a b = true ↔ a = b
  | [], [] => by simp [beqJFields]
  | (k₁, v₁) :: as, (k₂, v₂) :: bs => by
      simp [beqJFields, beqJVal_iff v₁ v₂, beqJFields_iff as bs, and_assoc]
  | [], _ :: _ => by simp [beqJFields]
  | _ :: _, [] => by simp [beqJFields]
end

instance : DecidableEq JVal := fun a b => decidable_of_iff _ (beqJVal_iff a b)

instance : LawfulBEq JVal where
  eq_of_beq h := (beqJVal_iff _ _).mp h
  rfl := (beqJVal_iff _ _).mpr rfl

/-- Python `dict.get(key, default)`: the first binding wins; the default is
used only when the key is absent (a key bound to `None` yields `None`). -/
def dictGet (d : List (String × JVal)) (k : String) (dflt : JVal) : JVal :=
  match d.lookup k with
  | some v => v
  | none => dflt

/-- Python `key in dict`. -/
def dictHas (d : List (String × JVal)) (k : String) : Bool :=
  (d.lookup k).isSome

/-- Python `dict[key]`; total model returning `null` where Python would
raise `KeyError` (no call site below reaches that case). -/
def dictIdx (d : List (String × JVal)) (k : String) : JVal :=
  dictGet d k .null

mutual
/-- Python `repr` of a decoded JSON value (`None` / `True` / `False`
spelling, strings quoted).  Escapes inside `repr` of a string are not
modelled; no theorem below depends on them. -/
def pyRepr : JVal → String
  | .null => "None"
  | .bool true => "True"
  | .bool false => "False"
  | .num s => s
  | .str s => "'" ++ s ++ "'"
  | .arr xs => "[" ++ String.intercalate ", " (pyReprList xs) ++ "]"
  | .obj kvs => "\x7b" ++ String.intercalate ", " (pyReprFields kvs) ++ "\x7d"

def pyReprList : List JVal → List String
  | [] => []
  | x :: xs => pyRepr x :: pyReprList xs

def pyReprFields : List (String × JVal) → List String
  | [] => []
  | (k, v) :: kvs => ("'" ++ k ++ "': " ++ pyRepr v) :: pyReprFields kvs
end

/-- Python `str()` as applied by the f-strings of the source: a string is
itself, anything else renders as its `repr`. -/
def pyStr : JVal → String
  | .str s => s
  | v => pyRepr v

/-- Python truthiness of a decoded JSON value.  The numeric case tests the
lexeme against zero spellings (an approximation; no theorem below depends
on numeric truthiness). -/
def truthy : JVal → Bool
  | .null => false
  | .bool b => b
  | .num s => !(s = "0" || s = "-0" || s = "0.0" || s = "-0.0")
  | .str s => !(s = "")
  | .arr xs => !xs.isEmpty
  | .obj kvs => !kvs.isEmpty

/-- View a value as a Python list; total model returning `[]` where the
source would raise a `TypeError` (iterating a non-list).  Call sites below
only reach the `arr` case on well-typed bookmark data. -/
def asList : JVal → List JVal
  | .arr xs => xs
  | _ => []

/-- View a value as a Python dict; total model returning the empty dict
where the source would raise an `AttributeError`. -/
def asObj : JVal → List (String × JVal)
  | .obj kvs => kvs
  | _ => []

/-- Python `s * n` for strings. -/
def strTimes (s : String) (n : Nat) : String :=
  String.join (List.replicate n s)

mutual
/-- The number of constructors of a value: an upper bound on any recursion
the converter performs over it, used as fuel below. -/
def jvalSize : JVal → Nat
  | .arr xs => 1 + jvalSizeList xs
  | .obj kvs => 1 + jvalSizeFields kvs
  | _ => 1

def jvalSizeList : List JVal → Nat
  | [] => 1
  | x :: xs => 1 + jvalSize x + jvalSizeList xs

def jvalSizeFields : List (String × JVal) → Nat
  | [] => 1
  | (_, v) :: kvs => 1 + jvalSize v + jvalSizeFields kvs
end

/-- `build_link_html` from the source (lines 121–129): one markup line for
a link record, with per-field defaults `"#"` (href), `""` (add_date,
icon), and the Untitled-Bookmark name. -/
def build_link_html (item : List (String × JVal)) (indent_level : Nat) : String :=
  let indent := strTimes "    " indent_level
  indent ++ "<DT><A HREF=\"" ++ pyStr (dictGet item "href" (.str "#")) ++ "\" " ++
    "ADD_DATE=\"" ++ pyStr (dictGet item "add_date" (.str "")) ++ "\" " ++
    "ICON=\"" ++ pyStr (dictGet item "icon" (.str "")) ++ "\">" ++
    pyStr (dictGet item "name" (.str "未命名书签")) ++ "</A>"

mutual
/-- `build_folder_html` from the source (lines 100–119): the heading
fragments and the optional nested list block, joined with newlines (the
source joins the fragment list with `"\n"`, so the fragments after the
dates land on their own output lines).  The `fuel` argument makes the
recursion through the decoded data structural; callers supply fuel
exceeding the recursion depth (`jvalSize`), so the exhausted-fuel branch
is unreachable. -/
def build_folder_html : Nat → List (String × JVal) → Nat → String
  | 0, _, _ => ""
  | fuel + 1, item, indent_level =>
    let indent := strTimes "    " indent_level
    let html₀ := [indent ++ "<DT><H3 ADD_DATE=\"" ++ pyStr (dictGet item "add_date" (.str "")) ++ "\" " ++
        "LAST_MODIFIED=\"" ++ pyStr (dictGet item "last_modified" (.str "")) ++ "\""]
    let html₁ := if dictHas item "personal_toolbar_folder" then
        html₀ ++ [" PERSONAL_TOOLBAR_FOLDER=\"" ++ pyStr (dictIdx item "personal_toolbar_folder") ++ "\""]
      else html₀
    let html₂ := html₁ ++ [">" ++ pyStr (dictGet item "name" (.str "未命名文件夹")) ++ "</H3>"]
    let html₃ := if truthy (dictGet item "children" .null) then
        html₂ ++ (["\n" ++ indent ++ "<DL><p>"] ++
          ((asList (dictIdx item "children")).map
            (fun c => build_bookmark_html fuel c (indent_level + 1))) ++
          [indent ++ "</DL><p>"])
      else html₂
    String.intercalate "\n" html₃

/-- `build_bookmark_html` from the source (lines 131–136): dispatch on the
`type` discriminant, defaulting to link behaviour. -/
def build_bookmark_html : Nat → JVal → Nat → String
  | 0, _, _ => ""
  | fuel + 1, item, indent_level =>
    if (dictGet (asObj item) "type" .null) == JVal.str "folder" then
      build_folder_html fuel (asObj item) indent_level
    else
      build_link_html (asObj item) indent_level
end

/-- The fixed document header emitted by `json_to_html`
(source lines 146–153). -/
def htmlHeaderParts : List String :=
  ["<!DOCTYPE NETSCAPE-Bookmark-file-1>",
   "<!-- 这是自动生成的文件。请勿编辑！ -->",
   "<META HTTP-EQUIV=\"Content-Type\" CONTENT=\"text/html; charset=UTF-8\">",
   "<TITLE>书签</TITLE>",
   "<H1>书签</H1>",
   "<DL><p>"]

/-- The markup assembly of `json_to_html` on successfully decoded data
(source lines 145–162). -/
def renderDocument (data : JVal) : String :=
  String.intercalate "\n"
    (htmlHeaderParts ++ (asList data).map (fun item => build_bookmark_html (jvalSize item) item 1) ++
      ["</DL><p>"])

/-! ## The document tree

`html_to_json` works on the element tree produced by `BeautifulSoup` with
the `lxml` backend.  A tree is elements (lower-cased tag name, attribute
list, children) and text nodes; the construction of such a tree from
markup text is modelled further below. -/

inductive Node where
  | elem (tag : String) (attrs : List (String × String)) (children : List Node)
  | text (s : String)
deriving Repr

/-- The direct children of a node. -/
def Node.childrenOf : Node → List Node
  | .elem _ _ ch => ch
  | .text _ => []

/-- Whether a node is an element with the given tag name. -/
def Node.tagIs (n : Node) (t : String) : Bool :=
  match n with
  | .elem tg _ _ => tg = t
  | .text _ => false

/-- `tag.find(name, recursive=False)` and `element.find_next_sibling(name)`
of bs4: the first element with the given tag name in a node sequence
(direct children for the former, following siblings for the latter). -/
def findDirect (tag : String) : List Node → Option Node
  | [] => none
  | n :: rest => if n.tagIs tag then some n else findDirect tag rest

/-- `tag.get(attr)`: attribute lookup on an element (`lxml` lower-cases
attribute names, so lookups in the source use lower-case keys). -/
def attrGet (n : Node) (key : String) : Option String :=
  match n with
  | .elem _ attrs _ => attrs.lookup key
  | .text _ => none

/-- `tag.has_attr(attr)`. -/
def hasAttr (n : Node) (key : String) : Bool :=
  (attrGet n key).isSome

mutual
/-- The descendant strings of a node, in document order (`tag.strings`). -/
def nodeStrings : Node → List String
  | .text s => [s]
  | .elem _ _ ch => forestStrings ch

def forestStrings : List Node → List String
  | [] => []
  | n :: rest => nodeStrings n ++ forestStrings rest
end

/-- The characters Python `str.strip()` removes: exactly those for which
`str.isspace()` holds — the ASCII whitespace controls TAB through CR
(including vertical tab and form feed), the separator controls
U+001C–U+001F, the space, NEL (U+0085), NBSP (U+00A0), the Ogham space
mark (U+1680), the Unicode space separators U+2000–U+200A, the line and
paragraph separators (U+2028, U+2029), the narrow no-break space
(U+202F), the medium mathematical space (U+205F) and the ideographic
space (U+3000). -/
def pyWhitespace (c : Char) : Bool :=
  (9 ≤ c.toNat && c.toNat ≤ 13) ||
  (28 ≤ c.toNat && c.toNat ≤ 32) ||
  c.toNat = 0x85 || c.toNat = 0xA0 || c.toNat = 0x1680 ||
  (0x2000 ≤ c.toNat && c.toNat ≤ 0x200A) ||
  c.toNat = 0x2028 || c.toNat = 0x2029 ||
  c.toNat = 0x202F || c.toNat = 0x205F || c.toNat = 0x3000

/-- Python `str.strip()`: drop leading and trailing whitespace. -/
def pyStrip (s : String) : String :=
  String.mk (((s.data.dropWhile pyWhitespace).reverse.dropWhile pyWhitespace).reverse)

/-- `tag.get_text(strip=True)`: every descendant string stripped and the
results concatenated (stripped-empty strings contribute nothing to the
concatenation, so dropping them is not modelled separately). -/
def getTextStrip (n : Node) : String :=
  String.join ((nodeStrings n).map pyStrip)

/-- A `tag.get` result as the Python value stored in the result dict:
`None` when the attribute is absent. -/
def optStr : Option String → JVal
  | some s => .str s
  | none => .null

mutual
/-- The number of constructors of a document node: an upper bound on any
recursion the parser performs over it, used as fuel below. -/
def nodeSize : Node → Nat
  | .text _ => 1
  | .elem _ _ ch => 2 + forestSize ch

def forestSize : List Node → Nat
  | [] => 1
  | n :: rest => 1 + nodeSize n + forestSize rest
end

/-- `parse_bookmark_link` from the source (lines 51–60).  The `a = none`
case is unreachable from the loop of `parse_bookmark_list` (the source
would raise there); the model returns an empty dict. -/
def parse_bookmark_link (dt : Node) : JVal :=
  match findDirect "a" dt.childrenOf with
  | none => .obj []
  | some a =>
    .obj [("type", JVal.str "bookmark"),
          ("name", JVal.str (getTextStrip a)),
          ("href", optStr (attrGet a "href")),
          ("add_date", optStr (attrGet a "add_date")),
          ("icon", optStr (attrGet a "icon"))]

mutual
/-- `parse_bookmark_folder` from the source (lines 29–49).  The Python
function reads `dt_element.find_next_sibling("dl")`; the embedding passes
the element's following siblings explicitly (`after`).  A found sibling
list is a truthy bs4 `Tag` (the class defines neither `__bool__` nor
`__len__`), so `if nested_dl:` tests only that `find_next_sibling` did not
return `None`.  The `h3 = none` case is unreachable from the loop of
`parse_bookmark_list` (the source would raise there).  The `fuel`
argument makes the recursion structural; callers supply fuel exceeding
the recursion depth (`nodeSize` / `forestSize`), so the exhausted-fuel
branch is unreachable. -/
def parse_bookmark_folder : Nat → Node → List Node → JVal
  | 0, _, _ => .obj []
  | fuel + 1, dt, after =>
    match findDirect "h3" dt.childrenOf with
    | none => .obj []
    | some h3 =>
      let children : List JVal :=
        match findDirect "dl" after with
        | some dl => parse_bookmark_list fuel dl
        | none => []
      .obj ([("type", JVal.str "folder"),
             ("name", JVal.str (getTextStrip h3)),
             ("add_date", optStr (attrGet h3 "add_date")),
             ("last_modified", optStr (attrGet h3 "last_modified")),
             ("children", JVal.arr children)] ++
            (if hasAttr h3 "personal_toolbar_folder" then
              [("personal_toolbar_folder", optStr (attrGet h3 "personal_toolbar_folder"))]
             else []))

/-- `parse_bookmark_list` from the source (lines 62–78): the dispatch loop
over the direct `dt` children of a list element. -/
def parse_bookmark_list : Nat → Node → List JVal
  | 0, _ => []
  | fuel + 1, dl =>
    match dl with
    | .elem _ _ ch => parseItems fuel ch
    | .text _ => []

/-- The body of the loop of `parse_bookmark_list`: one output item per
direct `dt` child holding a direct `h3` (folder) or a direct `a` (link);
anything else contributes nothing. -/
def parseItems : Nat → List Node → List JVal
  | 0, _ => []
  | _ + 1, [] => []
  | fuel + 1, c :: rest =>
    if c.tagIs "dt" then
      if (findDirect "h3" c.childrenOf).isSome then
        parse_bookmark_folder fuel c rest :: parseItems fuel rest
      else if (findDirect "a" c.childrenOf).isSome then
        parse_bookmark_link c :: parseItems fuel rest
      else
        parseItems fuel rest
    else
      parseItems fuel rest
end

mutual
/-- The pre-order search of `soup.find(name)` strictly inside a node. -/
def nodeFind (tag : String) : Node → Option (Node × List Node)
  | .text _ => none
  | .elem _ _ ch => findWithTail tag ch

/-- `soup.find(name)`: pre-order search for the first element with the
given tag name, returned together with its following siblings (the
context a later `find_next_sibling` searches). -/
def findWithTail (tag : String) : List Node → Option (Node × List Node)
  | [] => none
  | n :: rest =>
    if n.tagIs tag then some (n, rest)
    else
      match nodeFind tag n with
      | some r => some r
      | none => findWithTail tag rest
end

/-- `soup.find(name)` when only the found element matters. -/
def findFirstTag (tag : String) (forest : List Node) : Option Node :=
  (findWithTail tag forest).map (fun r => r.1)

/-! ## The JSON encoder

Modelled from the spec: JSON encoding/decoding is an external capability
(any standard codec); this is `json.dumps(..., indent=4,
ensure_ascii=False)` as documented for the standard library codec. -/

/-- Lower-case hexadecimal digit. -/
def hexDigit (n : Nat) : Char :=
  if n < 10 then Char.ofNat (48 + n) else Char.ofNat (87 + n)

/-- JSON string escaping with `ensure_ascii=False`: only the backslash,
the double quote and control characters are escaped. -/
def jsonEscapeChar (c : Char) : String :=
  if c = '"' then "\\\""
  else if c = '\\' then "\\\\"
  else if c = '\n' then "\\n"
  else if c = '\r' then "\\r"
  else if c = '\t' then "\\t"
  else if c.toNat = 8 then "\\b"
  else if c.toNat = 12 then "\\f"
  else if c.toNat < 32 then "\\u00" ++ String.mk [hexDigit (c.toNat / 16), hexDigit (c.toNat % 16)]
  else String.mk [c]

def jsonEscape (s : String) : String :=
  String.join (s.data.map jsonEscapeChar)

mutual
/-- `json.dumps(v, indent=4, ensure_ascii=False)` at a nesting level. -/
def jsonDumps : JVal → Nat → String
  | .null, _ => "null"
  | .bool true, _ => "true"
  | .bool false, _ => "false"
  | .num s, _ => s
  | .str s, _ => "\"" ++ jsonEscape s ++ "\""
  | .arr [], _ => "[]"
  | .arr (x :: xs), lvl =>
      "[\n" ++ strTimes " " (4 * (lvl + 1)) ++
      String.intercalate (",\n" ++ strTimes " " (4 * (lvl + 1))) (jsonDumpsList (x :: xs) (lvl + 1)) ++
      "\n" ++ strTimes " " (4 * lvl) ++ "]"
  | .obj [], _ => "\x7b\x7d"
  | .obj (kv :: kvs), lvl =>
      "\x7b\n" ++ strTimes " " (4 * (lvl + 1)) ++
      String.intercalate (",\n" ++ strTimes " " (4 * (lvl + 1))) (jsonDumpsFields (kv :: kvs) (lvl + 1)) ++
      "\n" ++ strTimes " " (4 * lvl) ++ "\x7d"

def jsonDumpsList : List JVal → Nat → List String
  | [], _ => []
  | x :: xs, lvl => jsonDumps x lvl :: jsonDumpsList xs lvl

def jsonDumpsFields : List (String × JVal) → Nat → List String
  | [], _ => []
  | (k, v) :: kvs, lvl => ("\"" ++ jsonEscape k ++ "\": " ++ jsonDumps v lvl) :: jsonDumpsFields kvs lvl
end

/-- The error result of `html_to_json` when no root list exists (source
line 92). -/
def noRootListError : String :=
  jsonDumps (.obj [("error", .str "找不到主书签列表(DL标签)。")]) 0

/-- The root-list location of `html_to_json` (source lines 85–92): the
list following the first top-level heading when that lookup succeeds,
otherwise the first list anywhere in the document. -/
def findRootDl (doc : List Node) : Option Node :=
  let fromH1 :=
    match findWithTail "h1" doc with
    | some (_, sibs) => findDirect "dl" sibs
    | none => none
  match fromH1 with
  | some dl => some dl
  | none => findFirstTag "dl" doc

/-- `html_to_json` from the parsed document on (source lines 85–96).  A
found element is truthy in bs4 (`Tag` defines neither `__bool__` nor
`__len__`), so `if not root_dl` only tests for `find` returning `None`. -/
def html_to_json_dom (doc : List Node) : String :=
  match findRootDl doc with
  | none => noRootListError
  | some dl => jsonDumps (.arr (parse_bookmark_list (nodeSize dl) dl)) 0

/-! ## The lenient markup parse

Modelled from the spec: step 1 of the parser contract, the external
tolerant markup parse (`BeautifulSoup(html_content, "lxml")`), which the
spec treats as an external capability.  The model below tokenizes tags
and text, lower-cases tag and attribute names, skips markup declarations
and comments, and rebuilds the element tree with the lenient-parser
behaviours the source relies on. -/

/-- Markup tokens. -/
inductive Tok where
  | openTag (tag : String) (attrs : List (String × String))
  | closeTag (tag : String)
  | txt (s : String)
deriving Repr

/-- Characters of tag and attribute names. -/
def isNameChar (c : Char) : Bool :=
  c.isAlpha || c.isDigit || c = '-' || c = '_' || c = ':'

def lowerStr (s : String) : String :=
  String.mk (s.data.map Char.toLower)

/-- The lexer runs a character automaton; these are its modes.  Pending
accumulations (text run, tag name, attribute name, attribute value) live
in the mode. -/
inductive LMode where
  | text (acc : List Char)
  | afterLt
  | bang
  | closeName (acc : List Char)
  | closeJunk (tag : String)
  | tagName (acc : List Char)
  | attrsIdle (tag : String) (attrs : List (String × String))
  | attrName (tag : String) (attrs : List (String × String)) (acc : List Char)
  | attrEq (tag : String) (attrs : List (String × String)) (aname : String)
  | attrValQ (tag : String) (attrs : List (String × String)) (aname : String) (acc : List Char)
  | attrValU (tag : String) (attrs : List (String × String)) (aname : String) (acc : List Char)
deriving Repr

/-- Lexer state: current mode and tokens emitted so far. -/
structure LexSt where
  mode : LMode
  toks : List Tok
deriving Repr

/-- Emit a pending text run; an empty run produces no token. -/
def flushText (acc : List Char) (toks : List Tok) : List Tok :=
  if acc.isEmpty then toks else toks ++ [.txt (String.mk acc)]

/-- One lexer step.  `<` begins markup; `<!` skips a declaration or
comment through the next `>`; `</name...>` is an end tag; `<name` begins
a start tag whose attributes are `name="value"` (quoted values may hold
any character but the quote) or bare names; any other character extends
the current run.  Tag and attribute names are lower-cased as by the
`lxml` backend. -/
def lstep (st : LexSt) (c : Char) : LexSt :=
  match st.mode with
  | .text acc =>
    if c = '<' then ⟨.afterLt, flushText acc st.toks⟩
    else ⟨.text (acc ++ [c]), st.toks⟩
  | .afterLt =>
    if c = '!' then ⟨.bang, st.toks⟩
    else if c = '/' then ⟨.closeName [], st.toks⟩
    else if isNameChar c then ⟨.tagName [c], st.toks⟩
    else if c = '<' then ⟨.afterLt, st.toks ++ [.txt "<"]⟩
    else ⟨.text ['<', c], st.toks⟩
  | .bang =>
    if c = '>' then ⟨.text [], st.toks⟩ else ⟨.bang, st.toks⟩
  | .closeName acc =>
    if isNameChar c then ⟨.closeName (acc ++ [c]), st.toks⟩
    else if c = '>' then ⟨.text [], st.toks ++ [.closeTag (lowerStr (String.mk acc))]⟩
    else ⟨.closeJunk (lowerStr (String.mk acc)), st.toks⟩
  | .closeJunk tg =>
    if c = '>' then ⟨.text [], st.toks ++ [.closeTag tg]⟩ else ⟨.closeJunk tg, st.toks⟩
  | .tagName acc =>
    if isNameChar c then ⟨.tagName (acc ++ [c]), st.toks⟩
    else if c = '>' then ⟨.text [], st.toks ++ [.openTag (lowerStr (String.mk acc)) []]⟩
    else ⟨.attrsIdle (lowerStr (String.mk acc)) [], st.toks⟩
  | .attrsIdle tg attrs =>
    if c = '>' then ⟨.text [], st.toks ++ [.openTag tg attrs]⟩
    else if isNameChar c then ⟨.attrName tg attrs [c], st.toks⟩
    else ⟨.attrsIdle tg attrs, st.toks⟩
  | .attrName tg attrs acc =>
    if isNameChar c then ⟨.attrName tg attrs (acc ++ [c]), st.toks⟩
    else if c = '=' then ⟨.attrEq tg attrs (lowerStr (String.mk acc)), st.toks⟩
    else if c = '>' then
      ⟨.text [], st.toks ++ [.openTag tg (attrs ++ [(lowerStr (String.mk acc), "")])]⟩
    else ⟨.attrsIdle tg (attrs ++ [(lowerStr (String.mk acc), "")]), st.toks⟩
  | .attrEq tg attrs an =>
    if c = '"' then ⟨.attrValQ tg attrs an [], st.toks⟩
    else if c = '>' then ⟨.text [], st.toks ++ [.openTag tg (attrs ++ [(an, "")])]⟩
    else if c = ' ' then ⟨.attrEq tg attrs an, st.toks⟩
    else ⟨.attrValU tg attrs an [c], st.toks⟩
  | .attrValQ tg attrs an acc =>
    if c = '"' then ⟨.attrsIdle tg (attrs ++ [(an, String.mk acc)]), st.toks⟩
    else ⟨.attrValQ tg attrs an (acc ++ [c]), st.toks⟩
  | .attrValU tg attrs an acc =>
    if c = '>' then ⟨.text [], st.toks ++ [.openTag tg (attrs ++ [(an, String.mk acc)])]⟩
    else if c = ' ' then ⟨.attrsIdle tg (attrs ++ [(an, String.mk acc)]), st.toks⟩
    else ⟨.attrValU tg attrs an (acc ++ [c]), st.toks⟩

/-- At end of input, a pending text run is emitted; an unterminated tag is
dropped. -/
def lexFinish (st : LexSt) : List Tok :=
  match st.mode with
  | .text acc => flushText acc st.toks
  | _ => st.toks

/-- The token stream of a markup text. -/
def lexChars (l : List Char) : List Tok :=
  lexFinish (l.foldl lstep ⟨.text [], []⟩)

/-- An open element under construction. -/
structure Frame where
  tag : String
  attrs : List (String × String)
  children : List Node
deriving Repr

/-- Append a finished node to the children of the innermost open element
(the bottom sentinel frame collects the top-level nodes). -/
def pushNode (n : Node) : List Frame → List Frame
  | [] => []
  | f :: fs => ⟨f.tag, f.attrs, f.children ++ [n]⟩ :: fs

/-- Close the innermost open element and attach it to its parent. -/
def closeTop : List Frame → List Frame
  | [] => []
  | f :: fs => pushNode (.elem f.tag f.attrs f.children) fs

/-- The implied-end-tag rule of the lenient parser, restricted to the tags
of the bookmark dialect: a new `dt` or `dl` start tag closes an open `p`
or `dt` element (the HTML content model allows neither a nested list nor
a sibling item inside a `dt`, and no item inside a `p`).  This sibling
placement of a folder's nested list is exactly what
`find_next_sibling("dl")` in the source relies on. -/
def autoCloses (newTag openTag : String) : Bool :=
  (newTag = "dt" || newTag = "dl") && (openTag = "p" || openTag = "dt")

/-- Fold a run of frames, innermost first, into a single node: each frame
becomes an element holding the node accumulated so far as its last
child.  This is the repeated close-and-attach of the builder. -/
def rollup : Node → List Frame → Node
  | n, [] => n
  | n, f :: fs => rollup (.elem f.tag f.attrs (f.children ++ [n])) fs

/-- Close implied-closed elements before opening a new tag: the maximal
run of top frames whose tags the new tag closes collapses into the frame
below it. -/
def autoCloseLoop (newTag : String) (st : List Frame) : List Frame :=
  match st.takeWhile (fun f => autoCloses newTag f.tag) with
  | [] => st
  | f :: fs =>
    pushNode (rollup (.elem f.tag f.attrs f.children) fs)
      (st.dropWhile (fun f => autoCloses newTag f.tag))

/-- Elements without content. -/
def voidTag (t : String) : Bool :=
  t = "meta" || t = "br" || t = "img" || t = "hr" || t = "link" || t = "input"

def stackHasTag (t : String) : List Frame → Bool
  | [] => false
  | f :: fs => f.tag = t || stackHasTag t fs

/-- Handle an end tag: close open elements up to and including the
nearest one with the given name (any elements above it close into it
first). -/
def closeUntil (t : String) (st : List Frame) : List Frame :=
  match st.dropWhile (fun f => !(f.tag = t)) with
  | [] => []
  | target :: rest =>
    match st.takeWhile (fun f => !(f.tag = t)) with
    | [] => pushNode (.elem target.tag target.attrs target.children) rest
    | f :: fs =>
      pushNode (.elem target.tag target.attrs
        (target.children ++ [rollup (.elem f.tag f.attrs f.children) fs])) rest

/-- One builder step. -/
def bstep (st : List Frame) : Tok → List Frame
  | .txt s => pushNode (.text s) st
  | .openTag t attrs =>
    let st₁ := autoCloseLoop t st
    if voidTag t then pushNode (.elem t attrs []) st₁
    else ⟨t, attrs, []⟩ :: st₁
  | .closeTag t => if stackHasTag t st then closeUntil t st else st

/-- Close every still-open element at end of input and return the
top-level nodes collected by the sentinel frame. -/
def closeAll : List Frame → List Node
  | [] => []
  | f :: fs => (rollup (.elem f.tag f.attrs f.children) fs).childrenOf

/-- The document tree of a markup text: tokenize, then fold the builder
over the tokens starting from the sentinel document frame.  The `html` /
`head` / `body` wrapper elements the real parser inserts are not
modelled: the source functions search the whole document recursively, so
the wrapper is immaterial to every lookup they perform.  Entity decoding
is not modelled; no theorem below feeds text containing `&` to the
model. -/
def soupParse (html_content : String) : List Node :=
  closeAll ((lexChars html_content.data).foldl bstep [⟨"[document]", [], []⟩])

/-- `html_to_json` from the source (lines 80–96): the external lenient
parse followed by root-list location, recursive parsing and JSON dump. -/
def html_to_json (html_content : String) : String :=
  html_to_json_dom (soupParse html_content)

/-! ## The JSON decoder

Modelled from the spec: JSON decoding is an external capability (any
standard codec).  The model mirrors the grammar and the diagnostics of
the standard Python `json` decoder, reporting positions as character
offsets. -/

/-- Decoder diagnostics. -/
inductive JErr where
  | expectingValue (pos : Nat)
  | expectingPropertyName (pos : Nat)
  | expectingColon (pos : Nat)
  | expectingCommaArr (pos : Nat)
  | expectingCommaObj (pos : Nat)
  | unterminatedString (pos : Nat)
  | invalidEscape (pos : Nat)
  | invalidControlChar (pos : Nat)
  | extraData (pos : Nat)
  | outOfFuel
deriving Repr, DecidableEq

/-- The message text of a decoder diagnostic (`str(e)` of the raised
decode error). -/
def JErr.message : JErr → String
  | .expectingValue p => "Expecting value: char " ++ toString p
  | .expectingPropertyName p => "Expecting property name enclosed in double quotes: char " ++ toString p
  | .expectingColon p => "Expecting \x27:\x27 delimiter: char " ++ toString p
  | .expectingCommaArr p => "Expecting \x27,\x27 delimiter: char " ++ toString p
  | .expectingCommaObj p => "Expecting \x27,\x27 delimiter: char " ++ toString p
  | .unterminatedString p => "Unterminated string starting at: char " ++ toString p
  | .invalidEscape p => "Invalid \\escape: char " ++ toString p
  | .invalidControlChar p => "Invalid control character at: char " ++ toString p
  | .extraData p => "Extra data: char " ++ toString p
  | .outOfFuel => "Expecting value: char 0"

/-- Skip JSON whitespace, tracking the position. -/
def skipWs : List Char → Nat → List Char × Nat
  | [], p => ([], p)
  | c :: rest, p =>
    if c = ' ' || c = '\t' || c = '\n' || c = '\r' then skipWs rest (p + 1)
    else (c :: rest, p)

def hexVal (c : Char) : Option Nat :=
  if c.isDigit then some (c.toNat - 48)
  else if 'a' ≤ c && c ≤ 'f' then some (c.toNat - 87)
  else if 'A' ≤ c && c ≤ 'F' then some (c.toNat - 55)
  else none

/-- Single-character string escapes. -/
def jsonEscCode (e : Char) : Option Char :=
  if e = '"' then some '"'
  else if e = '\\' then some '\\'
  else if e = '/' then some '/'
  else if e = 'b' then some (Char.ofNat 8)
  else if e = 'f' then some (Char.ofNat 12)
  else if e = 'n' then some '\n'
  else if e = 'r' then some '\r'
  else if e = 't' then some '\t'
  else none

/-- The body of a JSON string after its opening quote: the decoded
characters, the remaining input and the position after the closing
quote.  `start` is the position of the opening quote for the
unterminated-string diagnostic. -/
def parseJString : List Char → Nat → Nat → Except JErr (List Char × List Char × Nat)
  | [], _, start => .error (.unterminatedString start)
  | c :: rest, p, start =>
    if c = '"' then .ok ([], rest, p + 1)
    else if c = '\\' then
      match rest with
      | [] => .error (.unterminatedString start)
      | e :: rest₂ =>
        match jsonEscCode e with
        | some ch => (parseJString rest₂ (p + 2) start).map (fun x => (ch :: x.1, x.2.1, x.2.2))
        | none =>
          if e = 'u' then
            match rest₂ with
            | h₁ :: h₂ :: h₃ :: h₄ :: r =>
              match hexVal h₁, hexVal h₂, hexVal h₃, hexVal h₄ with
              | some a, some b, some c', some d =>
                (parseJString r (p + 6) start).map
                  (fun x => (Char.ofNat (((a * 16 + b) * 16 + c') * 16 + d) :: x.1, x.2.1, x.2.2))
              | _, _, _, _ => .error (.invalidEscape p)
            | _ => .error (.invalidEscape p)
          else .error (.invalidEscape p)
    else if c.toNat < 32 then .error (.invalidControlChar p)
    else (parseJString rest (p + 1) start).map (fun x => (c :: x.1, x.2.1, x.2.2))

/-- The optional fraction and exponent parts of a number literal. -/
def numFracExp (l : List Char) : List Char × List Char :=
  let fr :=
    match l with
    | '.' :: r =>
      if (r.head?.map Char.isDigit).getD false then
        ('.' :: r.takeWhile Char.isDigit, r.dropWhile Char.isDigit)
      else ([], l)
    | _ => ([], l)
  let ex :=
    match fr.2 with
    | e :: r =>
      if e = 'e' || e = 'E' then
        match r with
        | s :: r₂ =>
          if s = '+' || s = '-' then
            if (r₂.head?.map Char.isDigit).getD false then
              (e :: s :: r₂.takeWhile Char.isDigit, r₂.dropWhile Char.isDigit)
            else ([], fr.2)
          else if s.isDigit then
            (e :: r.takeWhile Char.isDigit, r.dropWhile Char.isDigit)
          else ([], fr.2)
        | [] => ([], fr.2)
      else ([], fr.2)
    | [] => ([], fr.2)
  (fr.1 ++ ex.1, ex.2)

/-- A number literal at the head of the input (maximal match of the JSON
number grammar), or `none`. -/
def parseJNumber (l : List Char) (p : Nat) : Option (List Char × List Char × Nat) :=
  let sl : List Char × List Char :=
    match l with
    | '-' :: r => (['-'], r)
    | _ => ([], l)
  match sl.2 with
  | '0' :: r =>
    let fe := numFracExp r
    let lex := sl.1 ++ '0' :: fe.1
    some (lex, fe.2, p + lex.length)
  | c :: r =>
    if c.isDigit then
      let fe := numFracExp ((c :: r).dropWhile Char.isDigit)
      let lex := sl.1 ++ (c :: r).takeWhile Char.isDigit ++ fe.1
      some (lex, fe.2, p + lex.length)
    else none
  | [] => none

mutual
/-- A JSON value at the head of the input.  The fuel makes the recursion
structural; `json_loads` supplies fuel exceeding any possible nesting, so
the exhausted-fuel branch is unreachable. -/
def parseJValue : Nat → List Char → Nat → Except JErr (JVal × List Char × Nat)
  | 0, _, _ => .error .outOfFuel
  | fuel + 1, l, p =>
    match skipWs l p with
    | (l₁, p₁) =>
      match l₁ with
      | [] => .error (.expectingValue p₁)
      | c :: rest =>
        if c = '"' then
          (parseJString rest (p₁ + 1) p₁).map (fun x => (JVal.str (String.mk x.1), x.2.1, x.2.2))
        else if c = '[' then
          match skipWs rest (p₁ + 1) with
          | (l₂, p₂) =>
            match l₂ with
            | ']' :: r => .ok (.arr [], r, p₂ + 1)
            | _ => (parseJArrItems fuel l₂ p₂).map (fun x => (JVal.arr x.1, x.2.1, x.2.2))
        else if c = '\x7b' then
          match skipWs rest (p₁ + 1) with
          | (l₂, p₂) =>
            match l₂ with
            | '\x7d' :: r => .ok (.obj [], r, p₂ + 1)
            | _ => (parseJObjItems fuel l₂ p₂).map (fun x => (JVal.obj x.1, x.2.1, x.2.2))
        else if c = 't' then
          match rest with
          | 'r' :: 'u' :: 'e' :: r => .ok (.bool true, r, p₁ + 4)
          | _ => .error (.expectingValue p₁)
        else if c = 'f' then
          match rest with
          | 'a' :: 'l' :: 's' :: 'e' :: r => .ok (.bool false, r, p₁ + 5)
          | _ => .error (.expectingValue p₁)
        else if c = 'n' then
          match rest with
          | 'u' :: 'l' :: 'l' :: r => .ok (.null, r, p₁ + 4)
          | _ => .error (.expectingValue p₁)
        else
          match parseJNumber (c :: rest) p₁ with
          | some (lx, r, p₂) => .ok (.num (String.mk lx), r, p₂)
          | none => .error (.expectingValue p₁)

/-- The elements of a non-empty array, after the opening bracket and any
leading whitespace. -/
def parseJArrItems : Nat → List Char → Nat → Except JErr (List JVal × List Char × Nat)
  | 0, _, _ => .error .outOfFuel
  | fuel + 1, l, p =>
    match parseJValue fuel l p with
    | .error e => .error e
    | .ok (v, l₁, p₁) =>
      match skipWs l₁ p₁ with
      | (l₂, p₂) =>
        match l₂ with
        | ']' :: r => .ok ([v], r, p₂ + 1)
        | ',' :: r => (parseJArrItems fuel r (p₂ + 1)).map (fun x => (v :: x.1, x.2.1, x.2.2))
        | _ => .error (.expectingCommaArr p₂)

/-- The members of a non-empty object, after the opening brace and any
leading whitespace. -/
def parseJObjItems : Nat → List Char → Nat → Except JErr (List (String × JVal) × List Char × Nat)
  | 0, _, _ => .error .outOfFuel
  | fuel + 1, l, p =>
    match l with
    | '"' :: rest =>
      (match parseJString rest (p + 1) p with
       | .error e => .error e
       | .ok (k, l₁, p₁) =>
         match skipWs l₁ p₁ with
         | (l₂, p₂) =>
           match l₂ with
           | ':' :: r =>
             (match parseJValue fuel r (p₂ + 1) with
              | .error e => .error e
              | .ok (v, l₃, p₃) =>
                match skipWs l₃ p₃ with
                | (l₄, p₄) =>
                  match l₄ with
                  | '\x7d' :: r₂ => .ok ([(String.mk k, v)], r₂, p₄ + 1)
                  | ',' :: r₂ =>
                    (match skipWs r₂ (p₄ + 1) with
                     | (l₅, p₅) =>
                       (parseJObjItems fuel l₅ p₅).map
                         (fun x => ((String.mk k, v) :: x.1, x.2.1, x.2.2)))
                  | _ => .error (.expectingCommaObj p₄))
           | _ => .error (.expectingColon p₂))
    | _ => .error (.expectingPropertyName p)
end

/-- `json.loads`: a single value followed only by whitespace.  The fuel
`2 * (length + 1)` exceeds the recursion depth of any input: nesting one
level deeper always consumes at least one character. -/
def json_loads (s : String) : Except JErr JVal :=
  match parseJValue (2 * (s.length + 1)) s.data 0 with
  | .error e => .error e
  | .ok (v, rest, p) =>
    match skipWs rest p with
    | ([], _) => .ok v
    | (_, p₁) => .error (.extraData p₁)

/-- `json_to_html` from the source (lines 138–162): decode, then emit the
fixed header and the serialized items; on a decode failure return the
error text instead (no partial document is produced). -/
def json_to_html (json_content : String) : String :=
  match json_loads json_content with
  | .error e => "错误: JSON格式无效 - " ++ e.message
  | .ok data => renderDocument data

/-! ## Structure of the folder serialization

The fragment list `build_folder_html` joins splits into the heading
fragments and the children block; the split is the workhorse for the
claims about the serializer. -/

/-- The heading fragments of a folder: the dates fragment, the optional
toolbar-folder fragment, and the name/closing fragment. -/
def folderHeadFragments (item : List (String × JVal)) (indent_level : Nat) : List String :=
  [strTimes "    " indent_level ++ "<DT><H3 ADD_DATE=\"" ++ pyStr (dictGet item "add_date" (.str "")) ++ "\" " ++
      "LAST_MODIFIED=\"" ++ pyStr (dictGet item "last_modified" (.str "")) ++ "\""] ++
  (if dictHas item "personal_toolbar_folder" then
      [" PERSONAL_TOOLBAR_FOLDER=\"" ++ pyStr (dictIdx item "personal_toolbar_folder") ++ "\""]
    else []) ++
  [">" ++ pyStr (dictGet item "name" (.str "未命名文件夹")) ++ "</H3>"]

/-- The nested-list fragments of a folder: present exactly when the
`children` entry is truthy. -/
def folderChildrenTail (fuel : Nat) (item : List (String × JVal)) (indent_level : Nat) : List String :=
  if truthy (dictGet item "children" .null) then
    ["\n" ++ strTimes "    " indent_level ++ "<DL><p>"] ++
      (asList (dictIdx item "children")).map (fun c => build_bookmark_html fuel c (indent_level + 1)) ++
      [strTimes "    " indent_level ++ "</DL><p>"]
  else []

theorem build_folder_html_split (fuel : Nat) (item : List (String × JVal)) (d : Nat) :
    build_folder_html (fuel + 1) item d =
      String.intercalate "\n" (folderHeadFragments item d ++ folderChildrenTail fuel item d) := by
  rw [build_folder_html]
  simp only [folderHeadFragments, folderChildrenTail]
  split_ifs <;> simp [List.append_assoc]

/-- Strings with the same character data are equal. -/
theorem strext {s t : String} (h : s.data = t.data) : s = t := by
  cases s; cases t; exact congrArg String.mk h

theorem findDirect_mem {tag : String} {l : List Node} {n : Node}
    (h : findDirect tag l = some n) : n ∈ l := by
  induction l with
  | nil => simp [findDirect] at h
  | cons c rest ih =>
    rw [findDirect] at h
    split at h
    · cases h
      exact List.mem_cons_self _ _
    · exact List.mem_cons_of_mem _ (ih h)

theorem findDirect_tagIs {tag : String} {l : List Node} {n : Node}
    (h : findDirect tag l = some n) : n.tagIs tag = true := by
  induction l with
  | nil => simp [findDirect] at h
  | cons c rest ih =>
    rw [findDirect] at h
    split at h
    · cases h
      assumption
    · exact ih h

mutual
/-- Whether an element with the given tag occurs anywhere in a node. -/
def nodeHasTag (tag : String) : Node → Bool
  | .text _ => false
  | .elem t _ ch => t == tag || forestHasTag tag ch

def forestHasTag (tag : String) : List Node → Bool
  | [] => false
  | n :: rest => nodeHasTag tag n || forestHasTag tag rest
end

theorem findDirect_hasTag {tag : String} {l : List Node} {n : Node}
    (h : findDirect tag l = some n) : forestHasTag tag l = true := by
  induction l with
  | nil => simp [findDirect] at h
  | cons c rest ih =>
    rw [findDirect] at h
    rw [forestHasTag]
    split at h
    · rename_i hc
      cases c with
      | text s => simp [Node.tagIs] at hc
      | elem t a ch =>
        simp only [Node.tagIs, decide_eq_true_eq] at hc
        simp [nodeHasTag, hc]
    · simp [ih h]

theorem findWithTail_none_iff (tag : String) :
    ∀ l : List Node, findWithTail tag l = none ↔ forestHasTag tag l = false
  | [] => by simp [findWithTail, forestHasTag]
  | .elem t a ch :: rest => by
    rw [findWithTail, forestHasTag, nodeHasTag]
    by_cases ht : t = tag
    · simp [Node.tagIs, ht]
    · rw [if_neg (by simp [Node.tagIs, ht])]
      simp only [nodeFind]
      have h₁ := findWithTail_none_iff tag ch
      have h₂ := findWithTail_none_iff tag rest
      cases hch : findWithTail tag ch with
      | some r =>
        rw [hch] at h₁
        have hcht : forestHasTag tag ch = true := by
          cases hb : forestHasTag tag ch with
          | true => rfl
          | false => exact absurd (h₁.mpr hb) (by simp)
        simp [hch, hcht, ht]
      | none =>
        rw [hch] at h₁
        have hchf : forestHasTag tag ch = false := h₁.mp rfl
        simp [hch, hchf, ht, h₂]
  | .text s :: rest => by
    rw [findWithTail, forestHasTag, nodeHasTag]
    simp [Node.tagIs, nodeFind, findWithTail_none_iff tag rest]

theorem findWithTail_sibs_hasTag (tag t₂ : String) :
    ∀ (l : List Node) (n : Node) (sibs : List Node),
      findWithTail tag l = some (n, sibs) → forestHasTag t₂ sibs = true →
      forestHasTag t₂ l = true
  | [], n, sibs => by simp [findWithTail]
  | .elem t a ch :: rest, n, sibs => by
    intro hf hs
    rw [findWithTail] at hf
    rw [forestHasTag]
    by_cases ht : (Node.elem t a ch).tagIs tag
    · rw [if_pos ht] at hf
      cases hf
      simp [hs]
    · rw [if_neg ht] at hf
      simp only [nodeFind] at hf
      cases hch : findWithTail tag ch with
      | some r =>
        rw [hch] at hf
        simp only [Option.some.injEq] at hf
        have := findWithTail_sibs_hasTag tag t₂ ch n sibs (by rw [hch, hf]) hs
        simp [nodeHasTag, this]
      | none =>
        rw [hch] at hf
        have := findWithTail_sibs_hasTag tag t₂ rest n sibs hf hs
        simp [this]
  | .text s :: rest, n, sibs => by
    intro hf hs
    rw [findWithTail] at hf
    rw [forestHasTag]
    simp only [Node.tagIs, nodeFind, Bool.false_eq_true, if_false] at hf
    have := findWithTail_sibs_hasTag tag t₂ rest n sibs hf hs
    simp [nodeHasTag, this]

theorem jsonDumps_arr_head (xs : List JVal) :
    (jsonDumps (.arr xs) 0).data.head? = some '[' := by
  cases xs with
  | nil => rfl
  | cons x xs =>
    rw [jsonDumps]
    simp [String.data_append]

theorem dumps_arr_ne_noRootListError (xs : List JVal) :
    jsonDumps (.arr xs) 0 ≠ noRootListError := by
  intro h
  have h₁ := congrArg (fun s => s.data.head?) h
  simp only [jsonDumps_arr_head] at h₁
  have h₂ : noRootListError.data.head? = some '\x7b' := rfl
  rw [h₂] at h₁
  simp at h₁

/-- A `dt` element with a direct `h3` child or a direct `a` child: exactly
the direct children of a list element that contribute a parsed node. -/
def isRealItem (c : Node) : Bool :=
  c.tagIs "dt" && ((findDirect "h3" c.childrenOf).isSome || (findDirect "a" c.childrenOf).isSome)

/-- A list element holding a folder whose nested list holds a folder whose
nested list holds a folder with one link: lists nested three levels below
the outer one. -/
def exDl3 : Node :=
  .elem "dl" []
    [.elem "dt" [] [.elem "h3" [] [.text "F1"]],
     .elem "dl" []
       [.elem "dt" [] [.elem "h3" [] [.text "F2"]],
        .elem "dl" []
          [.elem "dt" [] [.elem "h3" [] [.text "F3"]],
           .elem "dl" [] [.elem "dt" [] [.elem "a" [("href", "u")] [.text "L"]]]]]]

/-- The parse of `exDl3`: one top-level node, everything else nested. -/
def exDl3Parsed : List JVal :=
  [.obj [("type", .str "folder"), ("name", .str "F1"),
         ("add_date", .null), ("last_modified", .null),
         ("children", .arr
           [.obj [("type", .str "folder"), ("name", .str "F2"),
                  ("add_date", .null), ("last_modified", .null),
                  ("children", .arr
                    [.obj [("type", .str "folder"), ("name", .str "F3"),
                           ("add_date", .null), ("last_modified", .null),
                           ("children", .arr
                             [.obj [("type", .str "bookmark"), ("name", .str "L"),
                                    ("href", .str "u"), ("add_date", .null),
                                    ("icon", .null)]])]])]])]]

/-- A `dt` holding a folder heading, and a sibling sequence holding a
list element. -/
def exDt : Node := .elem "dt" [] [.elem "h3" [] [.text "F"]]

def exSibs : List Node :=
  [.text "x", .elem "dl" [] [.elem "dt" [] [.elem "a" [("href", "u")] [.text "L"]]]]

/-! ## Claims -/

/-- C7: when serializing a link record, an absent `href` is emitted as
`"#"` while absent `add_date` and `icon` are emitted as the empty string
(the href default is distinct from the empty-string default of the
dates); when serializing a folder record, absent `add_date` and
`last_modified` are emitted as the empty string. -/
theorem absent_attribute_defaults (item : List (String × JVal)) (d fuel : Nat) :
    (item.lookup "href" = none → item.lookup "add_date" = none → item.lookup "icon" = none →
      build_link_html item d =
        strTimes "    " d ++ "<DT><A HREF=\"#\" ADD_DATE=\"\" ICON=\"\">" ++
          pyStr (dictGet item "name" (.str "未命名书签")) ++ "</A>") ∧
    (item.lookup "add_date" = none → item.lookup "last_modified" = none →
      build_folder_html (fuel + 1) item d =
        String.intercalate "\n"
          (([strTimes "    " d ++ "<DT><H3 ADD_DATE=\"\" LAST_MODIFIED=\"\""] ++
            (if dictHas item "personal_toolbar_folder" then
                [" PERSONAL_TOOLBAR_FOLDER=\"" ++ pyStr (dictIdx item "personal_toolbar_folder") ++ "\""]
              else []) ++
            [">" ++ pyStr (dictGet item "name" (.str "未命名文件夹")) ++ "</H3>"]) ++
           folderChildrenTail fuel item d)) := by
  constructor
  · intro hh ha hi
    rw [build_link_html]
    simp only [dictGet, hh, ha, hi, pyStr]
    apply strext
    simp [String.data_append]
  · intro ha hm
    rw [build_folder_html_split]
    congr 2
    simp only [folderHeadFragments, dictGet, ha, hm, pyStr]
    congr 3
    apply strext
    simp [String.data_append]

/-- Witness for C7 at a concrete link and folder record lacking the
optional fields. -/
theorem absent_attribute_defaults_witness :
    build_link_html [("name", JVal.str "L")] 1 =
      "    <DT><A HREF=\"#\" ADD_DATE=\"\" ICON=\"\">L</A>" ∧
    build_folder_html 1 [("name", JVal.str "F")] 1 =
      "    <DT><H3 ADD_DATE=\"\" LAST_MODIFIED=\"\"\n>F</H3>" := by
  constructor
  · have h := (absent_attribute_defaults [("name", JVal.str "L")] 1 0).1 rfl rfl rfl
    rw [h]
    rfl
  · have h := (absent_attribute_defaults [("name", JVal.str "F")] 1 0).2 rfl rfl
    rw [h]
    rfl

/-- C10: every serializer default fires only when the key is absent from
the record: a present key is emitted as the Python string rendering of
its value, so a present empty-string name is emitted verbatim (not
replaced by the Untitled default) and a present `null` renders as
`None`. -/
theorem defaults_only_when_key_absent :
    (∀ (t n h a i : JVal) (d : Nat),
      build_link_html [("type", t), ("name", n), ("href", h), ("add_date", a), ("icon", i)] d =
        strTimes "    " d ++ "<DT><A HREF=\"" ++ pyStr h ++ "\" ADD_DATE=\"" ++ pyStr a ++
          "\" ICON=\"" ++ pyStr i ++ "\">" ++ pyStr n ++ "</A>") ∧
    (∀ (t n a m : JVal) (fuel d : Nat),
      build_folder_html (fuel + 1) [("type", t), ("name", n), ("add_date", a), ("last_modified", m)] d =
        String.intercalate "\n"
          [strTimes "    " d ++ "<DT><H3 ADD_DATE=\"" ++ pyStr a ++ "\" LAST_MODIFIED=\"" ++
              pyStr m ++ "\"",
           ">" ++ pyStr n ++ "</H3>"]) ∧
    pyStr (.str "") = "" ∧ pyStr .null = "None" := by
  refine ⟨?_, ?_, rfl, rfl⟩
  · intro t n h a i d
    rw [build_link_html]
    simp only [dictGet, List.lookup]
    norm_num
    apply strext
    simp [String.data_append]
  · intro t n a m fuel d
    rw [build_folder_html_split]
    have htail : folderChildrenTail fuel [("type", t), ("name", n), ("add_date", a), ("last_modified", m)] d = [] := rfl
    rw [htail]
    simp only [folderHeadFragments, dictGet, dictHas, List.lookup, List.append_nil]
    norm_num
    congr 2
    apply strext
    simp [String.data_append]

/-- C8: a folder's nested `<DL><p>` … `</DL><p>` block is emitted exactly
when the children sequence is non-empty; with zero children only the
heading fragments are emitted and no list block at all. -/
theorem children_block_iff_nonempty (fuel : Nat) (item : List (String × JVal)) (d : Nat) :
    ((item.lookup "children" = none ∨ item.lookup "children" = some (.arr [])) →
      build_folder_html (fuel + 1) item d = String.intercalate "\n" (folderHeadFragments item d)) ∧
    (∀ x xs, item.lookup "children" = some (.arr (x :: xs)) →
      build_folder_html (fuel + 1) item d =
        String.intercalate "\n" (folderHeadFragments item d ++
          (["\n" ++ strTimes "    " d ++ "<DL><p>"] ++
            (x :: xs).map (fun c => build_bookmark_html fuel c (d + 1)) ++
            [strTimes "    " d ++ "</DL><p>"]))) := by
  constructor
  · intro hch
    rw [build_folder_html_split]
    rcases hch with h | h <;>
      simp [folderChildrenTail, dictGet, h, truthy]
  · intro x xs h
    rw [build_folder_html_split]
    simp [folderChildrenTail, dictGet, dictIdx, h, truthy, asList]

/-- C6: parsing a folder heading without `PERSONAL_TOOLBAR_FOLDER` yields
a record without that key, and serializing a record without that key
emits heading fragments that contain no such attribute at all (rather
than an empty-string attribute). -/
theorem toolbar_flag_omitted (fuel : Nat) :
    (∀ (dt : Node) (after : List Node) (h3 : Node),
      findDirect "h3" dt.childrenOf = some h3 →
      attrGet h3 "personal_toolbar_folder" = none →
      (asObj (parse_bookmark_folder (fuel + 1) dt after)).lookup "personal_toolbar_folder" = none) ∧
    (∀ (item : List (String × JVal)) (d : Nat),
      item.lookup "personal_toolbar_folder" = none →
      build_folder_html (fuel + 1) item d =
        String.intercalate "\n"
          ([strTimes "    " d ++ "<DT><H3 ADD_DATE=\"" ++ pyStr (dictGet item "add_date" (.str "")) ++
              "\" " ++ "LAST_MODIFIED=\"" ++ pyStr (dictGet item "last_modified" (.str "")) ++ "\"",
            ">" ++ pyStr (dictGet item "name" (.str "未命名文件夹")) ++ "</H3>"] ++
           folderChildrenTail fuel item d)) := by
  constructor
  · intro dt after h3 hh3 hptf
    rw [parse_bookmark_folder]
    rw [hh3]
    simp [asObj, hasAttr, hptf, List.lookup]
  · intro item d hptf
    rw [build_folder_html_split]
    simp [folderHeadFragments, dictHas, hptf]

/-- Split a character list at a separator (Python `str.split`). -/
def splitCharList (sep : Char) : List Char → List (List Char)
  | [] => [[]]
  | c :: rest =>
    if c = sep then [] :: splitCharList sep rest
    else
      match splitCharList sep rest with
      | [] => [[c]]
      | g :: gs => (c :: g) :: gs

/-- The physical lines of an emitted text. -/
def linesOf (s : String) : List String :=
  (splitCharList '\n' s.data).map String.mk

theorem isPrefixOf_append_same (a b c : List Char) :
    List.isPrefixOf (a ++ b) (a ++ c) = List.isPrefixOf b c := by
  induction a with
  | nil => rfl
  | cons x xs ih => simp [List.isPrefixOf, ih]

theorem intercalate_go_ext (s : String) : ∀ (as : List String) (acc : String),
    ∃ t, String.intercalate.go acc s as = acc ++ t := by
  intro as
  induction as with
  | nil =>
    intro acc
    exact ⟨"", by rw [String.intercalate.go]; exact (String.append_empty acc).symm⟩
  | cons a as ih =>
    intro acc
    obtain ⟨t, ht⟩ := ih (acc ++ s ++ a)
    exact ⟨s ++ a ++ t, by rw [String.intercalate.go, ht]; simp [String.append_assoc]⟩

theorem intercalate_cons_ext (sep a : String) (l : List String) :
    ∃ t, String.intercalate sep (a :: l) = a ++ t := by
  rw [String.intercalate]
  exact intercalate_go_ext sep l a

/-- The concrete nested example: a folder holding a folder holding one
link, all optional attributes present. -/
def exLinkL : JVal :=
  .obj [("type", .str "bookmark"), ("name", .str "L"), ("href", .str "u"),
        ("add_date", .str "3"), ("icon", .str "i")]

def exFolderB : JVal :=
  .obj [("type", .str "folder"), ("name", .str "B"), ("add_date", .str "1"),
        ("last_modified", .str "2"), ("children", .arr [exLinkL])]

def exFolderA : JVal :=
  .obj [("type", .str "folder"), ("name", .str "A"), ("add_date", .str "1"),
        ("last_modified", .str "2"), ("children", .arr [exFolderB])]

/-- C3 (amended): each emitted item's opening line is indented with four
spaces times its nesting depth (a folder heading's later fragments land
on unindented continuation lines); in the folder-in-folder-with-link
example the innermost link line carries 12 spaces (the link sits at depth
3), and the serialized document parses back to the same two-levels-nested
tree. -/
theorem indentation_structure :
    (∀ (item : List (String × JVal)) (d : Nat),
      List.isPrefixOf (strTimes "    " d ++ "<DT>").data (build_link_html item d).data = true) ∧
    (∀ (item : List (String × JVal)) (d fuel : Nat),
      List.isPrefixOf (strTimes "    " d ++ "<DT>").data
        (build_folder_html (fuel + 1) item d).data = true) ∧
    "            <DT><A HREF=\"u\" ADD_DATE=\"3\" ICON=\"i\">L</A>" ∈
      linesOf (renderDocument (.arr [exFolderA])) ∧
    html_to_json (renderDocument (.arr [exFolderA])) = jsonDumps (.arr [exFolderA]) 0 := by
  refine ⟨?_, ?_, by decide, by rfl⟩
  · intro item d
    rw [build_link_html]
    simp only [String.data_append, List.append_assoc]
    rw [isPrefixOf_append_same]
    simp [List.isPrefixOf]
  · intro item d fuel
    rw [build_folder_html_split]
    rw [show folderHeadFragments item d ++ folderChildrenTail fuel item d =
      (strTimes "    " d ++ "<DT><H3 ADD_DATE=\"" ++ pyStr (dictGet item "add_date" (.str "")) ++
        "\" " ++ "LAST_MODIFIED=\"" ++ pyStr (dictGet item "last_modified" (.str "")) ++ "\"") ::
      ((if dictHas item "personal_toolbar_folder" then
          [" PERSONAL_TOOLBAR_FOLDER=\"" ++ pyStr (dictIdx item "personal_toolbar_folder") ++ "\""]
        else []) ++
       [">" ++ pyStr (dictGet item "name" (.str "未命名文件夹")) ++ "</H3>"] ++
       folderChildrenTail fuel item d) from by simp [folderHeadFragments]]
    obtain ⟨t, ht⟩ := intercalate_cons_ext "\n"
      (strTimes "    " d ++ "<DT><H3 ADD_DATE=\"" ++ pyStr (dictGet item "add_date" (.str "")) ++
        "\" " ++ "LAST_MODIFIED=\"" ++ pyStr (dictGet item "last_modified" (.str "")) ++ "\"")
      ((if dictHas item "personal_toolbar_folder" then
          [" PERSONAL_TOOLBAR_FOLDER=\"" ++ pyStr (dictIdx item "personal_toolbar_folder") ++ "\""]
        else []) ++
       [">" ++ pyStr (dictGet item "name" (.str "未命名文件夹")) ++ "</H3>"] ++
       folderChildrenTail fuel item d)
    rw [ht]
    simp only [String.data_append, List.append_assoc]
    rw [isPrefixOf_append_same]
    simp [List.isPrefixOf]

/-- Counterexample to C3 as stated: a folder heading's name fragment is
emitted on an unindented line, and the innermost link line of the
folder-in-folder example carries 12 spaces, not 8. -/
theorem indentation_counterexample :
    ">A</H3>" ∈ linesOf (renderDocument (.arr [exFolderA])) ∧
    List.isPrefixOf "    ".data (">A</H3>" : String).data = false ∧
    ("        <DT><A HREF=\"u\" ADD_DATE=\"3\" ICON=\"i\">L</A>" ∈
      linesOf (renderDocument (.arr [exFolderA]))) = False := by
  refine ⟨by decide, by decide, by decide⟩

theorem append_ne_empty_left {a b : String} (h : a.data ≠ []) : a ++ b ≠ "" := by
  intro he
  apply h
  have h₂ := congrArg String.data he
  rw [String.data_append] at h₂
  exact (List.append_eq_nil.mp h₂).1

/-- C9: on any input the decoder rejects, the conversion returns the
InvalidJSON error text carrying the decoder diagnostic — which is never
empty — and emits none of the fixed document header (the output does not
even begin with the document type line). -/
theorem invalid_json_yields_error_text (s : String) (e : JErr) (h : json_loads s = .error e) :
    json_to_html s = "错误: JSON格式无效 - " ++ e.message ∧
    e.message ≠ "" ∧
    ("<!DOCTYPE NETSCAPE-Bookmark-file-1>".data.isPrefixOf (json_to_html s).data) = false := by
  have hout : json_to_html s = "错误: JSON格式无效 - " ++ e.message := by
    unfold json_to_html
    rw [h]
  refine ⟨hout, ?_, ?_⟩
  · cases e <;> first
      | decide
      | (simp only [JErr.message]; apply append_ne_empty_left; decide)
  · rw [hout]
    rw [String.data_append]
    simp [List.isPrefixOf]

/-- Witness for C9 at the concrete malformed input of the spec. -/
theorem invalid_json_yields_error_text_witness :
    json_loads "\x7bnot valid" = .error (.expectingPropertyName 1) ∧
    json_to_html "\x7bnot valid" =
      "错误: JSON格式无效 - Expecting property name enclosed in double quotes: char 1" := by
  refine ⟨by rfl, ?_⟩
  have h := (invalid_json_yields_error_text "\x7bnot valid" (.expectingPropertyName 1) (by rfl)).1
  rw [h]
  rfl

/-- C2 (amended): the root-list location prefers the list following the
first heading; it falls back to the first list anywhere in the document
whenever that preferred lookup yields nothing — both when no heading
exists and when a heading exists but no list follows it — and the
conversion returns the NoRootList error exactly when no list element
occurs anywhere in the document. -/
theorem root_list_location (doc : List Node) :
    (html_to_json_dom doc = noRootListError ↔ findFirstTag "dl" doc = none) ∧
    (∀ a sibs dl, findWithTail "h1" doc = some (a, sibs) → findDirect "dl" sibs = some dl →
      html_to_json_dom doc = jsonDumps (.arr (parse_bookmark_list (nodeSize dl) dl)) 0) ∧
    ((∀ a sibs, findWithTail "h1" doc = some (a, sibs) → findDirect "dl" sibs = none) →
      ∀ dl, findFirstTag "dl" doc = some dl →
      html_to_json_dom doc = jsonDumps (.arr (parse_bookmark_list (nodeSize dl) dl)) 0) := by
  refine ⟨?_, ?_, ?_⟩
  · unfold html_to_json_dom findRootDl
    cases hh : findWithTail "h1" doc with
    | none =>
      simp only [hh]
      cases hf : findFirstTag "dl" doc with
      | none => simp [hf]
      | some dl => simp [hf, dumps_arr_ne_noRootListError]
    | some pr =>
      obtain ⟨a, sibs⟩ := pr
      simp only [hh]
      cases hd : findDirect "dl" sibs with
      | some dl =>
        simp only [hd]
        constructor
        · intro habs
          exact absurd habs (dumps_arr_ne_noRootListError _)
        · intro hnone
          have h₁ := findDirect_hasTag hd
          have h₂ := findWithTail_sibs_hasTag "h1" "dl" doc a sibs hh h₁
          have h₃ : findWithTail "dl" doc = none := by
            unfold findFirstTag at hnone
            cases hft : findWithTail "dl" doc with
            | none => rfl
            | some r => rw [hft] at hnone; simp at hnone
          rw [findWithTail_none_iff] at h₃
          simp [h₂] at h₃
      | none =>
        simp only [hd]
        cases hf : findFirstTag "dl" doc with
        | none => simp [hf]
        | some dl => simp [hf, dumps_arr_ne_noRootListError]
  · intro a sibs dl hh hd
    unfold html_to_json_dom findRootDl
    simp only [hh, hd]
  · intro hfail dl hf
    unfold html_to_json_dom findRootDl
    cases hh : findWithTail "h1" doc with
    | none => simp only [hh, hf]
    | some pr =>
      obtain ⟨a, sibs⟩ := pr
      simp only [hh, hfail a sibs hh, hf]

/-- A document whose heading has no following list, while a list exists
elsewhere (before the heading). -/
def exNoListAfterHeading : List Node := [.elem "dl" [] [], .elem "h1" [] [.text "T"]]

/-- Counterexample to C2 as stated: the claim allows the fall back to the
first list anywhere only when no heading exists, so on a document whose
heading has no following list it predicts the NoRootList failure; the
code falls back and converts the list found elsewhere instead. -/
theorem root_list_location_counterexample :
    findWithTail "h1" exNoListAfterHeading = some (.elem "h1" [] [.text "T"], []) ∧
    findDirect "dl" ([] : List Node) = none ∧
    html_to_json_dom exNoListAfterHeading = jsonDumps (.arr []) 0 ∧
    html_to_json_dom exNoListAfterHeading ≠ noRootListError := by
  refine ⟨by rfl, by rfl, by rfl, ?_⟩
  intro h
  rw [show html_to_json_dom exNoListAfterHeading = jsonDumps (.arr []) 0 from by rfl] at h
  exact dumps_arr_ne_noRootListError [] h

/-- Witness for C2 at a concrete document with heading and following
list, and at a document with no list at all. -/
theorem root_list_location_witness :
    html_to_json_dom [.elem "h1" [] [], .elem "dl" [] []] = jsonDumps (.arr []) 0 ∧
    html_to_json_dom [.text "x"] = noRootListError := by
  constructor
  · exact (root_list_location [.elem "h1" [] [], .elem "dl" [] []]).2.1
      (.elem "h1" [] []) [.elem "dl" [] []] (.elem "dl" [] []) (by rfl) (by rfl)
  · exact (root_list_location [.text "x"]).1.mpr (by rfl)

/-- C4: a folder's children sequence is the recursive parse of the list
element found among the item's following siblings (never a descendant of
the item: the search runs over the sibling sequence, and the found list
is a member of it), and is empty when no sibling list exists. -/
theorem children_from_sibling_list (fuel : Nat) (dt : Node) (after : List Node) (h3 : Node)
    (hh3 : findDirect "h3" dt.childrenOf = some h3) :
    (∀ dl, findDirect "dl" after = some dl →
      dl ∈ after ∧ dl.tagIs "dl" = true ∧
      (asObj (parse_bookmark_folder (fuel + 1) dt after)).lookup "children" =
        some (.arr (parse_bookmark_list fuel dl))) ∧
    (findDirect "dl" after = none →
      (asObj (parse_bookmark_folder (fuel + 1) dt after)).lookup "children" =
        some (.arr [])) := by
  constructor
  · intro dl hdl
    refine ⟨findDirect_mem hdl, findDirect_tagIs hdl, ?_⟩
    rw [parse_bookmark_folder, hh3]
    simp [asObj, hdl, List.lookup]
  · intro hnone
    rw [parse_bookmark_folder, hh3]
    simp [asObj, hnone, List.lookup]

/-- Witness for C4 at a concrete item with and without a sibling list. -/
theorem children_from_sibling_list_witness :
    (asObj (parse_bookmark_folder 6 exDt exSibs)).lookup "children" =
      some (.arr (parse_bookmark_list 5
        (.elem "dl" [] [.elem "dt" [] [.elem "a" [("href", "u")] [.text "L"]]]))) ∧
    (asObj (parse_bookmark_folder 6 exDt [])).lookup "children" = some (.arr []) := by
  exact ⟨((children_from_sibling_list 5 exDt exSibs (.elem "h3" [] [.text "F"]) rfl).1
            (.elem "dl" [] [.elem "dt" [] [.elem "a" [("href", "u")] [.text "L"]]]) rfl).2.2,
         (children_from_sibling_list 5 exDt [] (.elem "h3" [] [.text "F"]) rfl).2 rfl⟩

/-- C5: each level of the parse considers only the direct children of the
current list element — the parsed sequence has exactly one node per
direct `dt` child that holds a direct heading or hyperlink, so markers
nested in an inner folder's own list are never counted at an outer
level; in particular the three-levels-deep example parses to a single
top-level node with everything else nested below it. -/
theorem direct_children_only :
    (∀ (fuel : Nat) (ch : List Node), ch.length ≤ fuel →
      (parseItems fuel ch).length = (ch.filter isRealItem).length) ∧
    parse_bookmark_list (nodeSize exDl3) exDl3 = exDl3Parsed ∧
    (parse_bookmark_list (nodeSize exDl3) exDl3).length = 1 := by
  refine ⟨?_, by rfl, by rfl⟩
  intro fuel ch
  induction ch generalizing fuel with
  | nil =>
    intro hf
    cases fuel <;> simp [parseItems]
  | cons c rest ih =>
    intro hf
    match fuel, hf with
    | fuel + 1, hf =>
      rw [parseItems]
      have hrest : rest.length ≤ fuel := by
        simp only [List.length_cons] at hf
        omega
      by_cases h1 : c.tagIs "dt"
      · by_cases h2 : (findDirect "h3" c.childrenOf).isSome
        · simp [h1, h2, List.filter, isRealItem, ih fuel hrest]
        · by_cases h3 : (findDirect "a" c.childrenOf).isSome
          · simp [h1, h2, h3, List.filter, isRealItem, ih fuel hrest]
          · simp [h1, h2, h3, List.filter, isRealItem, ih fuel hrest]
      · simp [h1, List.filter, isRealItem, ih fuel hrest]

/-- Witness for C5: the counting law applied to the children of the
three-levels-deep example. -/
theorem direct_children_only_witness :
    (parseItems 54 exDl3.childrenOf).length =
      (exDl3.childrenOf.filter isRealItem).length ∧
    (exDl3.childrenOf.filter isRealItem).length = 1 := by
  exact ⟨direct_children_only.1 54 exDl3.childrenOf (by decide), rfl⟩

/-- Witness for C6 at a concrete heading element and record without the
toolbar attribute. -/
theorem toolbar_flag_omitted_witness :
    (asObj (parse_bookmark_folder 1
        (.elem "dt" [] [.elem "h3" [("add_date", "1")] [.text "F"]]) [])).lookup
      "personal_toolbar_folder" = none ∧
    build_folder_html 1 [("name", JVal.str "F"), ("add_date", JVal.str "1")] 1 =
      "    <DT><H3 ADD_DATE=\"1\" LAST_MODIFIED=\"\"\n>F</H3>" := by
  constructor
  · exact (toolbar_flag_omitted 0).1 (.elem "dt" [] [.elem "h3" [("add_date", "1")] [.text "F"]])
      [] (.elem "h3" [("add_date", "1")] [.text "F"]) rfl rfl
  · have h := (toolbar_flag_omitted 0).2 [("name", JVal.str "F"), ("add_date", JVal.str "1")] 1 rfl
    rw [h]
    rfl

/-- Witness for C8 at a concrete childless and one-child folder. -/
theorem children_block_iff_nonempty_witness :
    build_folder_html 2 [("name", JVal.str "F"), ("children", JVal.arr [])] 1 =
      "    <DT><H3 ADD_DATE=\"\" LAST_MODIFIED=\"\"\n>F</H3>" ∧
    build_folder_html 2 [("name", JVal.str "F"),
        ("children", JVal.arr [JVal.obj [("name", JVal.str "L")]])] 1 =
      "    <DT><H3 ADD_DATE=\"\" LAST_MODIFIED=\"\"\n>F</H3>\n\n    <DL><p>\n" ++
        "        <DT><A HREF=\"#\" ADD_DATE=\"\" ICON=\"\">L</A>\n    </DL><p>" := by
  constructor
  · have h := (children_block_iff_nonempty 1 [("name", JVal.str "F"), ("children", JVal.arr [])] 1).1
      (Or.inr rfl)
    rw [h]
    rfl
  · have h := (children_block_iff_nonempty 1 [("name", JVal.str "F"),
        ("children", JVal.arr [JVal.obj [("name", JVal.str "L")]])] 1).2
      (JVal.obj [("name", JVal.str "L")]) [] rfl
    rw [h]
    rfl

/-! ## Round-trip machinery

The abstract bookmark trees of the round-trip claim: every optional
attribute present (the claim's hypothesis), children an ordered
sequence. -/

inductive CNode where
  | folder (name add_date last_modified : String) (ptf : Option String) (children : List CNode)
  | link (name href add_date icon : String)
deriving Repr

mutual
/-- The record a tree encodes to — exactly the dictionary shape
`parse_bookmark_folder` / `parse_bookmark_link` produce. -/
def encodeNode : CNode → JVal
  | .link n h a i =>
    .obj [("type", .str "bookmark"), ("name", .str n), ("href", .str h),
          ("add_date", .str a), ("icon", .str i)]
  | .folder n a m ptf cs =>
    .obj ([("type", .str "folder"), ("name", .str n), ("add_date", .str a),
           ("last_modified", .str m), ("children", .arr (encodeForest cs))] ++
          (match ptf with
           | some p => [("personal_toolbar_folder", .str p)]
           | none => []))

def encodeForest : List CNode → List JVal
  | [] => []
  | t :: ts => encodeNode t :: encodeForest ts
end

/-- A string that passes unharmed through an attribute value or a text
run of the markup: no tag opener, no quote, no entity starter. -/
def benign (s : String) : Bool :=
  s.data.all (fun c => !(c = '<' || c = '"' || c = '&'))

/-- A non-empty benign name that stripping does not change. -/
def goodName (s : String) : Bool :=
  benign s && pyStrip s == s && !s.data.isEmpty

mutual
/-- The trees of the amended round-trip claim: benign strings, names
fixed by stripping, and every folder with at least one child (an empty
folder followed by a sibling list would capture that list as its own
children via `find_next_sibling`). -/
def goodTree : CNode → Bool
  | .link n h a i => goodName n && benign h && benign a && benign i
  | .folder n a m ptf cs =>
    goodName n && benign a && benign m &&
      (match ptf with | some p => benign p | none => true) &&
      !cs.isEmpty && goodForest cs

def goodForest : List CNode → Bool
  | [] => true
  | t :: ts => goodTree t && goodForest ts
end

/-- Four spaces per depth level. -/
def ind (d : Nat) : String := strTimes "    " d

/-- The heading attributes of a folder as the parse recovers them. -/
def hAttrs (a m : String) (ptf : Option String) : List (String × String) :=
  [("add_date", a), ("last_modified", m)] ++
    (match ptf with | some p => [("personal_toolbar_folder", p)] | none => [])

/-- The toolbar-folder fragment of the heading (with the newline the
fragment joining inserts before it). -/
def ptfStr : Option String → String
  | some p => "\n PERSONAL_TOOLBAR_FOLDER=\"" ++ p ++ "\""
  | none => ""

mutual
/-- The characters a good item serializes to, from its `<DT>` on (its
leading indent belongs to the preceding separator). -/
def itemChars : CNode → Nat → String
  | .link n h a i, _ =>
    "<DT><A HREF=\"" ++ h ++ "\" " ++ "ADD_DATE=\"" ++ a ++ "\" " ++
      "ICON=\"" ++ i ++ "\">" ++ n ++ "</A>"
  | .folder n a m ptf cs, d =>
    "<DT><H3 ADD_DATE=\"" ++ a ++ "\" " ++ "LAST_MODIFIED=\"" ++ m ++ "\"" ++ ptfStr ptf ++
      "\n>" ++ n ++ "</H3>" ++ "\n\n" ++ ind d ++ "<DL><p>" ++ regionChars cs (d + 1) ++ "</DL><p>"

/-- The characters between a `<DL><p>` and its `</DL><p>`: separators
and items. -/
def regionChars : List CNode → Nat → String
  | [], d => "\n" ++ ind (d - 1)
  | t :: ts, d => "\n" ++ ind d ++ itemsChars (t :: ts) d

def itemsChars : List CNode → Nat → String
  | [], d => "\n" ++ ind (d - 1)
  | [t], d => itemChars t d ++ "\n" ++ ind (d - 1)
  | t :: ts, d => itemChars t d ++ "\n" ++ ind d ++ itemsChars ts d
end

mutual
/-- Fuel sufficient for serializing a tree. -/
def buildCost : CNode → Nat
  | .link _ _ _ _ => 1
  | .folder _ _ _ _ cs => 2 + forestBuildCost cs

def forestBuildCost : List CNode → Nat
  | [] => 0
  | t :: ts => buildCost t + forestBuildCost ts
end

theorem mk_data (s : String) : String.mk s.data = s := by
  cases s
  rfl

theorem intercalate_go_pull (s x : String) : ∀ (l : List String) (y : String),
    String.intercalate.go (x ++ y) s l = x ++ String.intercalate.go y s l := by
  intro l
  induction l with
  | nil =>
    intro y
    rw [String.intercalate.go, String.intercalate.go]
  | cons a as ih =>
    intro y
    rw [String.intercalate.go, String.intercalate.go]
    rw [show x ++ y ++ s ++ a = x ++ (y ++ s ++ a) from by simp [String.append_assoc]]
    exact ih (y ++ s ++ a)

theorem intercalate_cons_cons (sep a b : String) (l : List String) :
    String.intercalate sep (a :: b :: l) = a ++ sep ++ String.intercalate sep (b :: l) := by
  rw [String.intercalate, String.intercalate, String.intercalate.go]
  rw [show a ++ sep ++ b = (a ++ sep) ++ b from by simp [String.append_assoc]]
  rw [intercalate_go_pull sep (a ++ sep) l b]

theorem intercalate_singleton (sep a : String) :
    String.intercalate sep [a] = a := by
  rw [String.intercalate, String.intercalate.go]

/-! ## Serializer characterization for the round trip -/

mutual
theorem buildCost_le_jvalSize : ∀ t : CNode, buildCost t ≤ jvalSize (encodeNode t)
  | .link n h a i => by
      rw [buildCost, encodeNode]
      simp [jvalSize, jvalSizeFields]
  | .folder n a m ptf cs => by
      have hf := forestBuildCost_le_jvalSizeList cs
      rw [buildCost]
      cases ptf <;>
        simp only [encodeNode.eq_def, jvalSize, jvalSizeFields, List.append_nil,
          List.cons_append, List.nil_append] <;>
        omega

theorem forestBuildCost_le_jvalSizeList :
    ∀ ts : List CNode, forestBuildCost ts ≤ jvalSizeList (encodeForest ts)
  | [] => by simp [forestBuildCost, encodeForest, jvalSizeList]
  | t :: ts => by
      have h1 := buildCost_le_jvalSize t
      have h2 := forestBuildCost_le_jvalSizeList ts
      rw [forestBuildCost, encodeForest]
      simp only [jvalSizeList]
      omega
end

theorem ind_zero : ind 0 = "" := rfl

theorem strTimes_ind (k : Nat) : strTimes "    " k = ind k := rfl

theorem joinItems : ∀ (cs : List CNode) (c : CNode) (d : Nat) (last : String),
    String.intercalate "\n"
        ((c :: cs).map (fun u => ind (d + 1) ++ itemChars u (d + 1)) ++ [ind d ++ last]) =
      ind (d + 1) ++ itemsChars (c :: cs) (d + 1) ++ last
  | [], c, d, last => by
      simp only [List.map, List.cons_append, List.nil_append]
      rw [intercalate_cons_cons, intercalate_singleton, itemsChars]
      apply strext
      simp [String.data_append, Nat.add_sub_cancel]
  | c2 :: cs, c, d, last => by
      have ih := joinItems cs c2 d last
      simp only [List.map, List.cons_append, List.nil_append] at ih ⊢
      rw [itemsChars]
      · rw [intercalate_cons_cons, ih]
        apply strext
        simp [String.data_append]
      · simp

mutual
theorem buildItemChars : ∀ (t : CNode), goodTree t = true → ∀ (d fuel : Nat),
    buildCost t ≤ fuel → build_bookmark_html fuel (encodeNode t) d = ind d ++ itemChars t d
  | .link n h a i => by
      intro _ d fuel hf
      rw [buildCost] at hf
      obtain ⟨f, rfl⟩ : ∃ f, fuel = f + 1 := ⟨fuel - 1, by omega⟩
      rw [build_bookmark_html, encodeNode]
      simp only [asObj, dictGet, List.lookup, beq_iff_eq]
      norm_num
      rw [build_link_html]
      simp only [dictGet, List.lookup]
      norm_num
      rw [itemChars]
      apply strext
      simp [ind, strTimes, pyStr, String.data_append]
  | .folder n a m ptf cs => by
      intro hg d fuel hf
      rw [buildCost] at hf
      obtain ⟨f, rfl⟩ : ∃ f, fuel = f + 1 + 1 := ⟨fuel - 2, by omega⟩
      have hfb : forestBuildCost cs ≤ f := by omega
      cases ptf with
      | none =>
        simp only [goodTree.eq_def, Bool.and_eq_true, Bool.not_eq_true'] at hg
        obtain ⟨⟨⟨⟨hn, ha⟩, hm⟩, hne⟩, hcs⟩ := hg
        cases cs with
        | nil => simp [List.isEmpty] at hne
        | cons c cs2 =>
          have hmap := buildForestChars (c :: cs2) hcs (d + 1) f hfb
          have hjoin := joinItems cs2 c d "</DL><p>"
          rw [encodeNode, build_bookmark_html]
          have hcond : (dictGet (asObj (JVal.obj
              ([("type", JVal.str "folder"), ("name", JVal.str n), ("add_date", JVal.str a),
                ("last_modified", JVal.str m),
                ("children", JVal.arr (encodeForest (c :: cs2)))] ++ []))) "type" JVal.null ==
                JVal.str "folder") = true := by
            simp only [asObj, dictGet, List.lookup, beq_iff_eq, List.append_nil]
            norm_num
          rw [if_pos hcond]
          simp only [asObj, List.append_nil]
          rw [build_folder_html_split]
          have hhead : folderHeadFragments
              [("type", JVal.str "folder"), ("name", JVal.str n), ("add_date", JVal.str a),
               ("last_modified", JVal.str m), ("children", JVal.arr (encodeForest (c :: cs2)))] d =
              [ind d ++ "<DT><H3 ADD_DATE=\"" ++ a ++ "\" " ++ "LAST_MODIFIED=\"" ++ m ++ "\"",
               ">" ++ n ++ "</H3>"] := by
            simp only [folderHeadFragments, dictGet, dictHas, List.lookup, strTimes_ind]
            norm_num
            simp [pyStr]
          have htail : folderChildrenTail f
              [("type", JVal.str "folder"), ("name", JVal.str n), ("add_date", JVal.str a),
               ("last_modified", JVal.str m), ("children", JVal.arr (encodeForest (c :: cs2)))] d =
              ["\n" ++ ind d ++ "<DL><p>"] ++
                (encodeForest (c :: cs2)).map (fun u => build_bookmark_html f u (d + 1)) ++
                [ind d ++ "</DL><p>"] := by
            simp only [folderChildrenTail, dictGet, dictIdx, List.lookup, truthy, asList,
              strTimes_ind]
            norm_num
            simp [encodeForest, truthy, asList]
          rw [hhead, htail, hmap]
          simp only [List.map, List.cons_append, List.nil_append] at hjoin ⊢
          rw [intercalate_cons_cons, intercalate_cons_cons, intercalate_cons_cons, hjoin]
          rw [itemChars, ptfStr]
          rw [regionChars]
          apply strext
          simp [String.data_append]
      | some p =>
        simp only [goodTree.eq_def, Bool.and_eq_true, Bool.not_eq_true'] at hg
        obtain ⟨⟨⟨⟨⟨hn, ha⟩, hm⟩, hp⟩, hne⟩, hcs⟩ := hg
        cases cs with
        | nil => simp [List.isEmpty] at hne
        | cons c cs2 =>
          have hmap := buildForestChars (c :: cs2) hcs (d + 1) f hfb
          have hjoin := joinItems cs2 c d "</DL><p>"
          rw [encodeNode, build_bookmark_html]
          have hcond : (dictGet (asObj (JVal.obj
              ([("type", JVal.str "folder"), ("name", JVal.str n), ("add_date", JVal.str a),
                ("last_modified", JVal.str m),
                ("children", JVal.arr (encodeForest (c :: cs2)))] ++
                [("personal_toolbar_folder", JVal.str p)]))) "type" JVal.null ==
                JVal.str "folder") = true := by
            simp only [asObj, dictGet, List.lookup, beq_iff_eq, List.cons_append,
              List.nil_append]
            norm_num
          rw [if_pos hcond]
          simp only [asObj, List.cons_append, List.nil_append]
          rw [build_folder_html_split]
          have hhead : folderHeadFragments
              [("type", JVal.str "folder"), ("name", JVal.str n), ("add_date", JVal.str a),
               ("last_modified", JVal.str m), ("children", JVal.arr (encodeForest (c :: cs2))),
               ("personal_toolbar_folder", JVal.str p)] d =
              [ind d ++ "<DT><H3 ADD_DATE=\"" ++ a ++ "\" " ++ "LAST_MODIFIED=\"" ++ m ++ "\"",
               " PERSONAL_TOOLBAR_FOLDER=\"" ++ p ++ "\"",
               ">" ++ n ++ "</H3>"] := by
            simp only [folderHeadFragments, dictGet, dictHas, dictIdx, List.lookup, strTimes_ind]
            norm_num
            simp [pyStr]
          have htail : folderChildrenTail f
              [("type", JVal.str "folder"), ("name", JVal.str n), ("add_date", JVal.str a),
               ("last_modified", JVal.str m), ("children", JVal.arr (encodeForest (c :: cs2))),
               ("personal_toolbar_folder", JVal.str p)] d =
              ["\n" ++ ind d ++ "<DL><p>"] ++
                (encodeForest (c :: cs2)).map (fun u => build_bookmark_html f u (d + 1)) ++
                [ind d ++ "</DL><p>"] := by
            simp only [folderChildrenTail, dictGet, dictIdx, List.lookup, truthy, asList,
              strTimes_ind]
            norm_num
            simp [encodeForest, truthy, asList]
          rw [hhead, htail, hmap]
          simp only [List.map, List.cons_append, List.nil_append] at hjoin ⊢
          rw [intercalate_cons_cons, intercalate_cons_cons, intercalate_cons_cons,
            intercalate_cons_cons, hjoin]
          rw [itemChars, ptfStr]
          rw [regionChars]
          apply strext
          simp [String.data_append]

theorem buildForestChars : ∀ (ts : List CNode), goodForest ts = true → ∀ (d fuel : Nat),
    forestBuildCost ts ≤ fuel →
    (encodeForest ts).map (fun u => build_bookmark_html fuel u d) =
      ts.map (fun t => ind d ++ itemChars t d)
  | [] => fun _ _ _ _ => rfl
  | t :: ts => by
      intro hg d fuel hfw
      rw [goodForest] at hg
      simp only [Bool.and_eq_true] at hg
      obtain ⟨h1, h2⟩ := hg
      rw [forestBuildCost] at hfw
      rw [encodeForest]
      simp only [List.map]
      rw [buildItemChars t h1 d fuel (by omega), buildForestChars ts h2 d fuel (by omega)]
end

def headerStr : String :=
  "<!DOCTYPE NETSCAPE-Bookmark-file-1>" ++ "\n" ++
  "<!-- 这是自动生成的文件。请勿编辑！ -->" ++ "\n" ++
  "<META HTTP-EQUIV=\"Content-Type\" CONTENT=\"text/html; charset=UTF-8\">" ++ "\n" ++
  "<TITLE>书签</TITLE>" ++ "\n" ++ "<H1>书签</H1>" ++ "\n"

theorem renderItems_eq : ∀ (ts : List CNode), goodForest ts = true →
    (encodeForest ts).map (fun item => build_bookmark_html (jvalSize item) item 1) =
      ts.map (fun t => ind 1 ++ itemChars t 1)
  | [] => fun _ => rfl
  | t :: ts => by
      intro hg
      rw [goodForest] at hg
      simp only [Bool.and_eq_true] at hg
      obtain ⟨h1, h2⟩ := hg
      rw [encodeForest]
      simp only [List.map]
      rw [buildItemChars t h1 1 _ (buildCost_le_jvalSize t), renderItems_eq ts h2]

theorem renderDocument_eq (ts : List CNode) (hg : goodForest ts = true) :
    renderDocument (.arr (encodeForest ts)) =
      headerStr ++ "<DL><p>" ++ regionChars ts 1 ++ "</DL><p>" := by
  rw [renderDocument]
  simp only [asList]
  rw [renderItems_eq ts hg]
  cases ts with
  | nil =>
    rw [regionChars]
    simp only [htmlHeaderParts, List.map, List.cons_append, List.nil_append]
    rw [intercalate_cons_cons, intercalate_cons_cons, intercalate_cons_cons,
      intercalate_cons_cons, intercalate_cons_cons, intercalate_cons_cons,
      intercalate_singleton]
    apply strext
    simp [headerStr, ind, strTimes, String.data_append]
  | cons c cs =>
    have hjoin := joinItems cs c 0 "</DL><p>"
    simp only [Nat.zero_add] at hjoin
    rw [show ind 0 ++ ("</DL><p>" : String) = "</DL><p>" from by rfl] at hjoin
    simp only [List.map, List.cons_append, List.nil_append] at hjoin ⊢
    rw [regionChars]
    simp only [htmlHeaderParts, List.map, List.cons_append, List.nil_append]
    rw [intercalate_cons_cons, intercalate_cons_cons, intercalate_cons_cons,
      intercalate_cons_cons, intercalate_cons_cons, intercalate_cons_cons, hjoin]
    apply strext
    simp [headerStr, String.data_append]

/-! ## The full round trip -/

/-! ## Tokenization of the serialized markup -/

/-- The tokens of the fixed document header through the root `<DL><p>`. -/
def headerToks : List Tok :=
  [.txt "\n", .txt "\n",
   .openTag "meta" [("http-equiv", "Content-Type"), ("content", "text/html; charset=UTF-8")],
   .txt "\n", .openTag "title" [], .txt "书签", .closeTag "title",
   .txt "\n", .openTag "h1" [], .txt "书签", .closeTag "h1", .txt "\n",
   .openTag "dl" [], .openTag "p" []]

mutual
/-- The tokens a good item lexes to (the leading separator of each item is
the text run flushed by its `<DT>`; it belongs to the surrounding items
list). -/
def itemToks : CNode → Nat → List Tok
  | .link n h a i, _ =>
    [.openTag "dt" [], .openTag "a" [("href", h), ("add_date", a), ("icon", i)],
     .txt n, .closeTag "a"]
  | .folder n a m ptf cs, d =>
    [.openTag "dt" [], .openTag "h3" (hAttrs a m ptf), .txt n, .closeTag "h3",
     .txt ("\n\n" ++ ind d), .openTag "dl" [], .openTag "p" []] ++
    (itemsToks cs (d + 1) ++ [.txt ("\n" ++ ind d), .closeTag "dl", .openTag "p" []])

/-- The tokens of a separator-prefixed run of items. -/
def itemsToks : List CNode → Nat → List Tok
  | [], _ => []
  | t :: ts, d => (.txt ("\n" ++ ind d) :: itemToks t d) ++ itemsToks ts d
end

/-! ### Character-run lemmas -/

theorem flushText_append (acc : List Char) (ts : List Tok) :
    flushText acc ts = ts ++ flushText acc [] := by
  simp only [flushText]
  split_ifs <;> simp

theorem flushText_ne {acc : List Char} (h : ¬acc = []) (ts : List Tok) :
    flushText acc ts = ts ++ [.txt (String.mk acc)] := by
  simp only [flushText]
  rw [if_neg]
  simpa using h

theorem benign_no_lt {s : String} (h : benign s = true) : ∀ c ∈ s.data, ¬c = '<' := by
  intro c hc
  simp only [benign, List.all_eq_true] at h
  have := h c hc
  simp only [Bool.not_eq_true', Bool.or_eq_false_iff, decide_eq_false_iff_not] at this
  exact this.1.1

theorem benign_no_quote {s : String} (h : benign s = true) : ∀ c ∈ s.data, ¬c = '"' := by
  intro c hc
  simp only [benign, List.all_eq_true] at h
  have := h c hc
  simp only [Bool.not_eq_true', Bool.or_eq_false_iff, decide_eq_false_iff_not] at this
  exact this.1.2

theorem runText : ∀ (l : List Char), (∀ c ∈ l, ¬c = '<') → ∀ (acc : List Char) (ts : List Tok),
    List.foldl lstep ⟨.text acc, ts⟩ l = ⟨.text (acc ++ l), ts⟩
  | [], _, acc, ts => by simp
  | c :: l, h, acc, ts => by
      rw [List.foldl_cons]
      have hc : ¬c = '<' := h c (List.mem_cons_self c l)
      rw [show lstep ⟨.text acc, ts⟩ c = ⟨.text (acc ++ [c]), ts⟩ from by
        simp [lstep, hc]]
      rw [runText l (fun x hx => h x (List.mem_cons_of_mem c hx)) (acc ++ [c]) ts]
      simp

theorem runValQ : ∀ (l : List Char), (∀ c ∈ l, ¬c = '"') →
    ∀ (tg : String) (A : List (String × String)) (an : String) (acc : List Char) (ts : List Tok),
    List.foldl lstep ⟨.attrValQ tg A an acc, ts⟩ l = ⟨.attrValQ tg A an (acc ++ l), ts⟩
  | [], _, tg, A, an, acc, ts => by simp
  | c :: l, h, tg, A, an, acc, ts => by
      rw [List.foldl_cons]
      have hc : ¬c = '"' := h c (List.mem_cons_self c l)
      rw [show lstep ⟨.attrValQ tg A an acc, ts⟩ c = ⟨.attrValQ tg A an (acc ++ [c]), ts⟩ from by
        simp [lstep, hc]]
      rw [runValQ l (fun x hx => h x (List.mem_cons_of_mem c hx)) tg A an (acc ++ [c]) ts]
      simp

theorem join_foldl_data : ∀ (l : List String) (a : String),
    (l.foldl (fun r s => r ++ s) a).data = a.data ++ (l.map String.data).flatten
  | [], a => by simp
  | s :: l, a => by
      rw [List.foldl_cons, join_foldl_data l (a ++ s)]
      simp [String.data_append]

theorem ind_succ (d : Nat) : ind (d + 1) = "    " ++ ind d := by
  apply strext
  simp only [ind, strTimes, String.join, List.replicate, String.data_append]
  rw [join_foldl_data, join_foldl_data]
  simp [String.data_append]

theorem ind_spaces : ∀ (d : Nat), ∀ c ∈ (ind d).data, c = ' '
  | 0, c, hc => by simp [ind, strTimes, String.join] at hc
  | d + 1, c, hc => by
      rw [ind_succ d] at hc
      rw [String.data_append] at hc
      rcases List.mem_append.mp hc with h | h
      · simp at h
        exact h
      · exact ind_spaces d c h

theorem ind_no_lt (d : Nat) : ∀ c ∈ (ind d).data, ¬c = '<' := by
  intro c hc
  rw [ind_spaces d c hc]
  decide

/-! ### Concrete markup fragments -/

theorem lexDT_A (acc : List Char) (ts : List Tok) :
    List.foldl lstep ⟨.text acc, ts⟩ ("<DT><A HREF=\"").data =
      ⟨.attrValQ "a" [] "href" [], flushText acc ts ++ [.openTag "dt" []]⟩ := by rfl

theorem lexDT_H3 (acc : List Char) (ts : List Tok) :
    List.foldl lstep ⟨.text acc, ts⟩ ("<DT><H3 ADD_DATE=\"").data =
      ⟨.attrValQ "h3" [] "add_date" [], flushText acc ts ++ [.openTag "dt" []]⟩ := by rfl

theorem lexQSpace (tg : String) (A : List (String × String)) (an : String) (acc : List Char)
    (ts : List Tok) :
    List.foldl lstep ⟨.attrValQ tg A an acc, ts⟩ ("\" ").data =
      ⟨.attrsIdle tg (A ++ [(an, String.mk acc)]), ts⟩ := by rfl

theorem lexQuote (tg : String) (A : List (String × String)) (an : String) (acc : List Char)
    (ts : List Tok) :
    List.foldl lstep ⟨.attrValQ tg A an acc, ts⟩ ("\"").data =
      ⟨.attrsIdle tg (A ++ [(an, String.mk acc)]), ts⟩ := by rfl

theorem lexQGt (tg : String) (A : List (String × String)) (an : String) (acc : List Char)
    (ts : List Tok) :
    List.foldl lstep ⟨.attrValQ tg A an acc, ts⟩ ("\">").data =
      ⟨.text [], ts ++ [.openTag tg (A ++ [(an, String.mk acc)])]⟩ := by rfl

theorem lexAddDate (tg : String) (A : List (String × String)) (ts : List Tok) :
    List.foldl lstep ⟨.attrsIdle tg A, ts⟩ ("ADD_DATE=\"").data =
      ⟨.attrValQ tg A "add_date" [], ts⟩ := by rfl

theorem lexIcon (tg : String) (A : List (String × String)) (ts : List Tok) :
    List.foldl lstep ⟨.attrsIdle tg A, ts⟩ ("ICON=\"").data =
      ⟨.attrValQ tg A "icon" [], ts⟩ := by rfl

theorem lexLastMod (tg : String) (A : List (String × String)) (ts : List Tok) :
    List.foldl lstep ⟨.attrsIdle tg A, ts⟩ ("LAST_MODIFIED=\"").data =
      ⟨.attrValQ tg A "last_modified" [], ts⟩ := by rfl

theorem lexPtf (tg : String) (A : List (String × String)) (ts : List Tok) :
    List.foldl lstep ⟨.attrsIdle tg A, ts⟩ ("\n PERSONAL_TOOLBAR_FOLDER=\"").data =
      ⟨.attrValQ tg A "personal_toolbar_folder" [], ts⟩ := by rfl

theorem lexNlGt (tg : String) (A : List (String × String)) (ts : List Tok) :
    List.foldl lstep ⟨.attrsIdle tg A, ts⟩ ("\n>").data =
      ⟨.text [], ts ++ [.openTag tg A]⟩ := by rfl

theorem lexCloseA (acc : List Char) (ts : List Tok) :
    List.foldl lstep ⟨.text acc, ts⟩ ("</A>").data =
      ⟨.text [], flushText acc ts ++ [.closeTag "a"]⟩ := by rfl

theorem lexCloseH3 (acc : List Char) (ts : List Tok) :
    List.foldl lstep ⟨.text acc, ts⟩ ("</H3>").data =
      ⟨.text [], flushText acc ts ++ [.closeTag "h3"]⟩ := by rfl

theorem lexDLp (acc : List Char) (ts : List Tok) :
    List.foldl lstep ⟨.text acc, ts⟩ ("<DL><p>").data =
      ⟨.text [], flushText acc ts ++ [.openTag "dl" []] ++ [.openTag "p" []]⟩ := by rfl

theorem lexCloseDLp (acc : List Char) (ts : List Tok) :
    List.foldl lstep ⟨.text acc, ts⟩ ("</DL><p>").data =
      ⟨.text [], flushText acc ts ++ [.closeTag "dl"] ++ [.openTag "p" []]⟩ := by rfl

theorem lexHeader :
    List.foldl lstep ⟨.text [], []⟩ (headerStr ++ "<DL><p>").data = ⟨.text [], headerToks⟩ := by
  rfl

theorem data_empty : ("" : String).data = [] := rfl

theorem data_nl : ("\n" : String).data = ['\n'] := rfl

theorem mk_append (s t : String) : String.mk (s.data ++ t.data) = s ++ t := rfl

theorem mk_nl2 (s : String) : String.mk ('\n' :: '\n' :: s.data) = "\n\n" ++ s := rfl

theorem mk_cons_nl (s : String) : String.mk ('\n' :: s.data) = "\n" ++ s := rfl

theorem goodForest_cons {t : CNode} {ts : List CNode} (h : goodForest (t :: ts) = true) :
    goodTree t = true ∧ goodForest ts = true := by
  rw [goodForest] at h
  simpa [Bool.and_eq_true] using h

mutual
theorem lexItem : ∀ (t : CNode), goodTree t = true → ∀ (d : Nat) (acc : List Char) (ts : List Tok),
    List.foldl lstep ⟨.text acc, ts⟩ (itemChars t d).data =
      ⟨.text [], ts ++ flushText acc [] ++ itemToks t d⟩
  | .link n h a i => by
      intro hg d acc ts
      simp only [goodTree.eq_def, goodName, Bool.and_eq_true, Bool.not_eq_true'] at hg
      obtain ⟨⟨⟨⟨⟨hnb, hnstrip⟩, hnne⟩, hh⟩, ha⟩, hi⟩ := hg
      have hnd : ¬n.data = [] := by
        intro hx
        rw [hx] at hnne
        simp at hnne
      rw [itemChars]
      simp only [String.data_append, List.foldl_append]
      rw [lexDT_A acc ts, runValQ h.data (benign_no_quote hh), lexQSpace, lexAddDate,
        runValQ a.data (benign_no_quote ha), lexQSpace, lexIcon,
        runValQ i.data (benign_no_quote hi), lexQGt, runText n.data (benign_no_lt hnb),
        lexCloseA]
      rw [flushText_append acc ts]
      simp only [List.nil_append]
      rw [flushText_ne hnd]
      rw [itemToks]
      simp [mk_data, List.append_assoc]
  | .folder n a m ptf cs => by
      intro hg d acc ts
      simp only [goodTree.eq_def, goodName, Bool.and_eq_true, Bool.not_eq_true'] at hg
      obtain ⟨⟨⟨⟨⟨⟨⟨hnb, hnstrip⟩, hnne⟩, ha⟩, hm⟩, hp⟩, hne⟩, hcs⟩ := hg
      have hnd : ¬n.data = [] := by
        intro hx
        rw [hx] at hnne
        simp at hnne
      cases cs with
      | nil => simp at hne
      | cons c cs2 =>
      rw [itemChars, regionChars]
      cases ptf with
      | none =>
        rw [ptfStr]
        simp only [String.data_append, List.foldl_append]
        rw [lexDT_H3 acc ts, runValQ a.data (benign_no_quote ha), lexQSpace, lexLastMod,
          runValQ m.data (benign_no_quote hm), lexQuote]
        rw [show ∀ st : LexSt, List.foldl lstep st ("" : String).data = st from fun st => rfl]
        rw [lexNlGt, runText n.data (benign_no_lt hnb), lexCloseH3]
        rw [show ∀ (T : List Tok) (acc' : List Char),
            List.foldl lstep ⟨LMode.text acc', T⟩ ("\n\n").data =
              ⟨LMode.text ((acc' ++ ['\n']) ++ ['\n']), T⟩ from fun T acc' => rfl]
        rw [runText (ind d).data (ind_no_lt d), lexDLp]
        rw [show ∀ (T : List Tok) (acc' : List Char),
            List.foldl lstep ⟨LMode.text acc', T⟩ ("\n").data =
              ⟨LMode.text (acc' ++ ['\n']), T⟩ from fun T acc' => rfl]
        rw [runText (ind (d + 1)).data (ind_no_lt (d + 1))]
        rw [show (([] : List Char) ++ ['\n']) ++ (ind (d + 1)).data =
            '\n' :: (ind (d + 1)).data from rfl]
        rw [lexItems cs2 c hcs (d + 1)]
        rw [show d + 1 - 1 = d from rfl]
        rw [lexCloseDLp]
        rw [flushText_append acc ts]
        simp only [List.nil_append]
        rw [flushText_ne hnd]
        rw [itemToks]
        simp [flushText, mk_data, mk_cons_nl, mk_nl2, hAttrs, ptfStr, List.append_assoc]
      | some p =>
        rw [ptfStr]
        simp only [String.data_append, List.foldl_append]
        rw [lexDT_H3 acc ts, runValQ a.data (benign_no_quote ha), lexQSpace, lexLastMod,
          runValQ m.data (benign_no_quote hm), lexQuote, lexPtf,
          runValQ p.data (benign_no_quote hp), lexQuote]
        rw [lexNlGt, runText n.data (benign_no_lt hnb), lexCloseH3]
        rw [show ∀ (T : List Tok) (acc' : List Char),
            List.foldl lstep ⟨LMode.text acc', T⟩ ("\n\n").data =
              ⟨LMode.text ((acc' ++ ['\n']) ++ ['\n']), T⟩ from fun T acc' => rfl]
        rw [runText (ind d).data (ind_no_lt d), lexDLp]
        rw [show ∀ (T : List Tok) (acc' : List Char),
            List.foldl lstep ⟨LMode.text acc', T⟩ ("\n").data =
              ⟨LMode.text (acc' ++ ['\n']), T⟩ from fun T acc' => rfl]
        rw [runText (ind (d + 1)).data (ind_no_lt (d + 1))]
        rw [show (([] : List Char) ++ ['\n']) ++ (ind (d + 1)).data =
            '\n' :: (ind (d + 1)).data from rfl]
        rw [lexItems cs2 c hcs (d + 1)]
        rw [show d + 1 - 1 = d from rfl]
        rw [lexCloseDLp]
        rw [flushText_append acc ts]
        simp only [List.nil_append]
        rw [flushText_ne hnd]
        rw [itemToks]
        simp [flushText, mk_data, mk_cons_nl, mk_nl2, hAttrs, ptfStr, List.append_assoc]
  termination_by t => sizeOf t
  decreasing_by all_goals (simp_wf; try omega)

theorem lexItems : ∀ (cs : List CNode) (c : CNode), goodForest (c :: cs) = true →
    ∀ (d : Nat) (ts : List Tok),
    List.foldl lstep ⟨.text ('\n' :: (ind d).data), ts⟩ (itemsChars (c :: cs) d).data =
      ⟨.text ('\n' :: (ind (d - 1)).data), ts ++ itemsToks (c :: cs) d⟩
  | [], c => by
      intro hg d ts
      obtain ⟨hc, _⟩ := goodForest_cons hg
      rw [itemsChars]
      simp only [String.data_append, List.foldl_append]
      rw [lexItem c hc]
      rw [show ∀ (T : List Tok) (acc' : List Char),
          List.foldl lstep ⟨LMode.text acc', T⟩ ("\n").data =
            ⟨LMode.text (acc' ++ ['\n']), T⟩ from fun T acc' => rfl]
      rw [runText (ind (d - 1)).data (ind_no_lt (d - 1))]
      rw [show itemsToks [c] d = Tok.txt ("\n" ++ ind d) :: itemToks c d from by
        simp [itemsToks]]
      simp [flushText, mk_cons_nl, List.append_assoc]
  | c2 :: cs, c => by
      intro hg d ts
      obtain ⟨hc, hrest⟩ := goodForest_cons hg
      rw [itemsChars]
      · simp only [String.data_append, List.foldl_append]
        rw [lexItem c hc]
        rw [show ∀ (T : List Tok) (acc' : List Char),
            List.foldl lstep ⟨LMode.text acc', T⟩ ("\n").data =
              ⟨LMode.text (acc' ++ ['\n']), T⟩ from fun T acc' => rfl]
        rw [runText (ind d).data (ind_no_lt d)]
        rw [show (([] : List Char) ++ ['\n']) ++ (ind d).data =
            '\n' :: (ind d).data from rfl]
        rw [lexItems cs c2 hrest d]
        rw [show itemsToks (c :: c2 :: cs) d =
            (Tok.txt ("\n" ++ ind d) :: itemToks c d) ++ itemsToks (c2 :: cs) d from
          by rw [itemsToks]]
        simp [flushText, mk_cons_nl, List.append_assoc]
      · simp
  termination_by cs c => 1 + sizeOf c + sizeOf cs
  decreasing_by all_goals (simp_wf; try omega)
end


/-- The tokens of the whole serialized document for a non-empty forest. -/
def docToks (cs : List CNode) : List Tok :=
  headerToks ++ itemsToks cs 1 ++ [.txt "\n", .closeTag "dl", .openTag "p" []]

theorem lexDocument (c : CNode) (ts : List CNode) (hg : goodForest (c :: ts) = true) :
    lexChars (renderDocument (.arr (encodeForest (c :: ts)))).data = docToks (c :: ts) := by
  rw [renderDocument_eq _ hg, lexChars, regionChars]
  have hH := lexHeader
  simp only [String.data_append, List.foldl_append] at hH ⊢
  rw [hH]
  rw [show ∀ (T : List Tok) (acc' : List Char),
      List.foldl lstep ⟨LMode.text acc', T⟩ ("\n").data =
        ⟨LMode.text (acc' ++ ['\n']), T⟩ from fun T acc' => rfl]
  rw [runText (ind 1).data (ind_no_lt 1)]
  rw [show (([] : List Char) ++ ['\n']) ++ (ind 1).data =
      '\n' :: (ind 1).data from rfl]
  rw [lexItems ts c hg 1]
  rw [show (1 : Nat) - 1 = 0 from rfl]
  rw [lexCloseDLp]
  rw [show lexFinish = fun st : LexSt => match st.mode with
      | .text acc => flushText acc st.toks
      | _ => st.toks from rfl]
  simp only [docToks]
  rw [show (ind 0).data = [] from rfl]
  simp [flushText, List.append_assoc]

/-! ## The document tree built from the tokens -/

/-- The children of the document element contributed by the fixed
header. -/
def headerNodes : List Node :=
  [.text "\n", .text "\n",
   .elem "meta" [("http-equiv", "Content-Type"), ("content", "text/html; charset=UTF-8")] [],
   .text "\n", .elem "title" [] [.text "书签"],
   .text "\n", .elem "h1" [] [.text "书签"], .text "\n"]

/-- A still-open frame closed with a trailing text run. -/
def pendElem (f : Frame) (sep : String) : Node :=
  .elem f.tag f.attrs (f.children ++ [.text sep])

/-- The anchor element of a serialized link. -/
def linkContent (n h a i : String) : List Node :=
  [.elem "a" [("href", h), ("add_date", a), ("icon", i)] [.text n]]

/-- The frame left open after an item is processed: a link leaves its
`dt` open (holding the anchor), a folder leaves the `p` that follows its
closed list. -/
def nextPend : CNode → Frame
  | .link n h a i => ⟨"dt", [], linkContent n h a i⟩
  | .folder _ _ _ _ _ => ⟨"p", [], []⟩

def lastPend : List CNode → Frame → Frame
  | [], pend => pend
  | t :: ts, _ => lastPend ts (nextPend t)

/-- The `dt` element of a serialized folder: the heading and the blank
separator run before the sibling list. -/
def dtElemF (n a m : String) (ptf : Option String) (d : Nat) : Node :=
  .elem "dt" [] [.elem "h3" (hAttrs a m ptf) [.text n], .text ("\n\n" ++ ind d)]

mutual
/-- The nodes a separator-plus-item block appends to the open list
element, given the frame still open from the previous block. -/
def blockNodes : Frame → String → CNode → Nat → List Node
  | pend, sep, .link _ _ _ _, _ => [pendElem pend sep]
  | pend, sep, .folder n a m ptf cs, d =>
    [pendElem pend sep, dtElemF n a m ptf d,
     .elem "dl" [] (itemsNodes cs (d + 1) ⟨"p", [], []⟩ ++
       [pendElem (lastPend cs ⟨"p", [], []⟩) ("\n" ++ ind d)])]

def itemsNodes : List CNode → Nat → Frame → List Node
  | [], _, _ => []
  | t :: ts, d, pend => blockNodes pend ("\n" ++ ind d) t d ++ itemsNodes ts d (nextPend t)
end

theorem nextPend_tag (t : CNode) : (nextPend t).tag = "p" ∨ (nextPend t).tag = "dt" := by
  cases t <;> simp [nextPend]

theorem lastPend_tag : ∀ (ts : List CNode) (pend : Frame),
    pend.tag = "p" ∨ pend.tag = "dt" →
    (lastPend ts pend).tag = "p" ∨ (lastPend ts pend).tag = "dt"
  | [], pend, h => h
  | t :: ts, pend, _ => by
      rw [lastPend]
      exact lastPend_tag ts (nextPend t) (nextPend_tag t)

mutual
theorem buildBlock : ∀ (t : CNode), ∀ (d : Nat) (sep : String) (pend : Frame)
    (dlA : List (String × String)) (dlC : List Node) (rest : List Frame),
    pend.tag = "p" ∨ pend.tag = "dt" →
    List.foldl bstep (pend :: ⟨"dl", dlA, dlC⟩ :: rest) (Tok.txt sep :: itemToks t d) =
      nextPend t :: ⟨"dl", dlA, dlC ++ blockNodes pend sep t d⟩ :: rest
  | .link n h a i => by
      intro d sep pend dlA dlC rest hpend
      obtain ⟨ptag, pattrs, pch⟩ := pend
      try simp only [Frame.tag] at hpend
      rw [itemToks]
      simp only [List.foldl_cons, List.foldl_nil]
      rcases hpend with h | h <;> subst h <;>
        simp [bstep, pushNode, autoCloseLoop, autoCloses, voidTag, rollup, stackHasTag,
          closeUntil, closeTop, List.takeWhile, List.dropWhile, blockNodes, pendElem,
          nextPend, linkContent, List.append_assoc]
  | .folder n a m ptf cs => by
      intro d sep pend dlA dlC rest hpend
      obtain ⟨ptag, pattrs, pch⟩ := pend
      try simp only [Frame.tag] at hpend
      rw [itemToks]
      simp only [List.cons_append, List.foldl_cons, List.foldl_append, List.foldl_nil]
      have hpre : List.foldl bstep (⟨ptag, pattrs, pch⟩ :: ⟨"dl", dlA, dlC⟩ :: rest)
          [Tok.txt sep, Tok.openTag "dt" [], Tok.openTag "h3" (hAttrs a m ptf), Tok.txt n,
           Tok.closeTag "h3", Tok.txt ("\n\n" ++ ind d), Tok.openTag "dl" [],
           Tok.openTag "p" []] =
          ⟨"p", [], []⟩ :: ⟨"dl", [], []⟩ ::
            ⟨"dl", dlA, (dlC ++ [pendElem ⟨ptag, pattrs, pch⟩ sep]) ++ [dtElemF n a m ptf d]⟩ ::
            rest := by
        simp only [List.foldl_cons, List.foldl_nil]
        rcases hpend with h | h <;> subst h <;>
          simp [bstep, pushNode, autoCloseLoop, autoCloses, voidTag, rollup, stackHasTag,
            closeUntil, closeTop, List.takeWhile, List.dropWhile, pendElem, dtElemF,
            List.append_assoc]
      simp only [List.foldl_cons, List.foldl_nil] at hpre
      rw [hpre]
      rw [buildItems cs (d + 1) ⟨"p", [], []⟩ [] []
        (⟨"dl", dlA, (dlC ++ [pendElem ⟨ptag, pattrs, pch⟩ sep]) ++ [dtElemF n a m ptf d]⟩ :: rest)
        (Or.inl rfl)]
      have hlp := lastPend_tag cs ⟨"p", [], []⟩ (Or.inl rfl)
      generalize hgen : lastPend cs ⟨"p", [], []⟩ = lp at hlp ⊢
      obtain ⟨ltag, lattrs, lch⟩ := lp
      try simp only [Frame.tag] at hlp
      try simp only [List.foldl_cons, List.foldl_nil]
      rcases hlp with h | h <;> subst h <;>
        simp [bstep, pushNode, autoCloseLoop, autoCloses, voidTag, rollup, stackHasTag,
          closeUntil, closeTop, List.takeWhile, List.dropWhile, blockNodes, pendElem,
          nextPend, hgen, List.append_assoc]
  termination_by t => sizeOf t
  decreasing_by all_goals (simp_wf; try omega)

theorem buildItems : ∀ (ts : List CNode), ∀ (d : Nat) (pend : Frame)
    (dlA : List (String × String)) (dlC : List Node) (rest : List Frame),
    pend.tag = "p" ∨ pend.tag = "dt" →
    List.foldl bstep (pend :: ⟨"dl", dlA, dlC⟩ :: rest) (itemsToks ts d) =
      lastPend ts pend :: ⟨"dl", dlA, dlC ++ itemsNodes ts d pend⟩ :: rest
  | [] => by
      intro d pend dlA dlC rest _
      simp [itemsToks, itemsNodes, lastPend]
  | t :: ts => by
      intro d pend dlA dlC rest hpend
      rw [itemsToks, List.foldl_append]
      rw [buildBlock t d ("\n" ++ ind d) pend dlA dlC rest hpend]
      rw [buildItems ts d (nextPend t) dlA (dlC ++ blockNodes pend ("\n" ++ ind d) t d) rest
        (nextPend_tag t)]
      rw [show lastPend (t :: ts) pend = lastPend ts (nextPend t) from by rw [lastPend]]
      rw [show itemsNodes (t :: ts) d pend =
          blockNodes pend ("\n" ++ ind d) t d ++ itemsNodes ts d (nextPend t) from by
        rw [itemsNodes]]
      simp [List.append_assoc]
  termination_by ts => sizeOf ts
  decreasing_by all_goals (simp_wf; try omega)
end

theorem buildHeader :
    List.foldl bstep [⟨"[document]", [], []⟩] headerToks =
      [⟨"p", [], []⟩, ⟨"dl", [], []⟩, ⟨"[document]", [], headerNodes⟩] := by rfl

theorem soupParse_doc (c : CNode) (ts : List CNode) (hg : goodForest (c :: ts) = true) :
    soupParse (renderDocument (.arr (encodeForest (c :: ts)))) =
      headerNodes ++
        [.elem "dl" [] (itemsNodes (c :: ts) 1 ⟨"p", [], []⟩ ++
          [pendElem (lastPend (c :: ts) ⟨"p", [], []⟩) "\n"]),
         .elem "p" [] []] := by
  rw [soupParse, lexDocument c ts hg, docToks]
  rw [List.foldl_append, List.foldl_append, buildHeader]
  rw [buildItems (c :: ts) 1 ⟨"p", [], []⟩ [] [] [⟨"[document]", [], headerNodes⟩] (Or.inl rfl)]
  have hlp := lastPend_tag (c :: ts) ⟨"p", [], []⟩ (Or.inl rfl)
  generalize hgen : lastPend (c :: ts) ⟨"p", [], []⟩ = lp at hlp ⊢
  obtain ⟨ltag, lattrs, lch⟩ := lp
  try simp only [Frame.tag] at hlp
  rcases hlp with h | h <;> subst h <;>
    simp [bstep, pushNode, autoCloseLoop, autoCloses, voidTag, rollup, stackHasTag,
      closeUntil, closeTop, closeAll, Node.childrenOf, List.takeWhile, List.dropWhile,
      pendElem, List.append_assoc]

theorem findRootDl_doc (X Y : List Node) :
    findRootDl (headerNodes ++ [.elem "dl" [] X, .elem "p" [] Y]) =
      some (.elem "dl" [] X) := by rfl

/-! ## The parse view of the built tree -/

/-- The separator text that ends up inside the element a block leaves
open: the inter-item separator, or the region-final separator for the
last block. -/
def headSep : List CNode → Nat → String → String
  | [], _, fin => fin
  | _ :: _, d, _ => "\n" ++ ind d

mutual
/-- The nodes of one item as the parser sees them: the item elements
with each trailing separator already attached inside. -/
def itemDomNodes : CNode → Nat → String → List Node
  | .link n h a i, _, trail => [.elem "dt" [] (linkContent n h a i ++ [.text trail])]
  | .folder n a m ptf cs, d, trail =>
    [dtElemF n a m ptf d,
     .elem "dl" [] (.elem "p" [] [.text (headSep cs (d + 1) ("\n" ++ ind d))] ::
       itemsDom cs (d + 1) ("\n" ++ ind d)),
     .elem "p" [] [.text trail]]

def itemsDom : List CNode → Nat → String → List Node
  | [], _, _ => []
  | t :: ts, d, fin => itemDomNodes t d (headSep ts d fin) ++ itemsDom ts d fin
end

/-- The builder view and the parse view of a list region coincide. -/
theorem bridge : ∀ (ts : List CNode) (d : Nat) (pend : Frame) (fin : String),
    itemsNodes ts d pend ++ [pendElem (lastPend ts pend) fin] =
      pendElem pend (headSep ts d fin) :: itemsDom ts d fin
  | [], d, pend, fin => by simp [itemsNodes, lastPend, itemsDom, headSep]
  | t :: ts, d, pend, fin => by
      rw [show itemsNodes (t :: ts) d pend =
          blockNodes pend ("\n" ++ ind d) t d ++ itemsNodes ts d (nextPend t) from by
        rw [itemsNodes]]
      rw [show lastPend (t :: ts) pend = lastPend ts (nextPend t) from by rw [lastPend]]
      rw [List.append_assoc, bridge ts d (nextPend t) fin]
      cases t with
      | link n h a i =>
        rw [show itemsDom (CNode.link n h a i :: ts) d fin =
            itemDomNodes (CNode.link n h a i) d (headSep ts d fin) ++ itemsDom ts d fin from by
          rw [itemsDom]]
        simp [blockNodes, itemDomNodes, nextPend, pendElem, linkContent, headSep]
      | folder n a m ptf cs =>
        rw [show itemsDom (CNode.folder n a m ptf cs :: ts) d fin =
            itemDomNodes (CNode.folder n a m ptf cs) d (headSep ts d fin) ++
              itemsDom ts d fin from by
          rw [itemsDom]]
        simp only [blockNodes]
        rw [bridge cs (d + 1) ⟨"p", [], []⟩ ("\n" ++ ind d)]
        simp [itemDomNodes, nextPend, pendElem, headSep]
  termination_by ts => sizeOf ts
  decreasing_by all_goals (simp_wf; try omega)

mutual
/-- Fuel sufficient for parsing one item of a region. -/
def cnodeCost : CNode → Nat
  | .link _ _ _ _ => 1
  | .folder _ _ _ _ cs => 4 + forestCost cs

def forestCost : List CNode → Nat
  | [] => 0
  | t :: ts => cnodeCost t + forestCost ts
end

theorem join_single (s : String) : String.join [s] = s := by
  show "" ++ s = s
  apply strext
  simp [String.data_append, data_empty]

theorem parse_link_dt (n h a i trail : String) (hstrip : pyStrip n = n) :
    parse_bookmark_link (.elem "dt" [] (linkContent n h a i ++ [.text trail])) =
      encodeNode (.link n h a i) := by
  simp [parse_bookmark_link, linkContent, Node.childrenOf, findDirect, Node.tagIs,
    getTextStrip, nodeStrings, forestStrings, attrGet, List.lookup, optStr, encodeNode,
    join_single, hstrip]

theorem forestSize_append : ∀ (l1 l2 : List Node),
    forestSize (l1 ++ l2) + 1 = forestSize l1 + forestSize l2
  | [], l2 => by simp [forestSize]; omega
  | n :: l1, l2 => by
      rw [List.cons_append, forestSize, forestSize]
      have := forestSize_append l1 l2
      omega

theorem nodeSize_pos (nd : Node) : 1 ≤ nodeSize nd := by
  cases nd with
  | elem t a c =>
    simp [nodeSize]
    omega
  | text s => simp [nodeSize]

theorem cost_le_sizeDom : ∀ (ts : List CNode) (d : Nat) (fin : String),
    forestCost ts + 1 ≤ forestSize (itemsDom ts d fin)
  | [], _, _ => by simp [forestCost, itemsDom, forestSize]
  | t :: ts, d, fin => by
      rw [show itemsDom (t :: ts) d fin =
          itemDomNodes t d (headSep ts d fin) ++ itemsDom ts d fin from by rw [itemsDom]]
      have happ := forestSize_append (itemDomNodes t d (headSep ts d fin)) (itemsDom ts d fin)
      have hts := cost_le_sizeDom ts d fin
      rw [forestCost]
      cases t with
      | link n h a i =>
        rw [cnodeCost]
        have h1 : 2 ≤ forestSize (itemDomNodes (CNode.link n h a i) d (headSep ts d fin)) := by
          rw [itemDomNodes]
          simp [forestSize, nodeSize, linkContent]
          try omega
        omega
      | folder n a m ptf cs =>
        rw [cnodeCost]
        have hcs := cost_le_sizeDom cs (d + 1) ("\n" ++ ind d)
        have h1 : 5 + forestCost cs ≤
            forestSize (itemDomNodes (CNode.folder n a m ptf cs) d (headSep ts d fin)) := by
          rw [itemDomNodes]
          simp [forestSize, nodeSize, dtElemF]
          omega
        omega
  termination_by ts => sizeOf ts
  decreasing_by all_goals (simp_wf; try omega)

theorem parse_itemsDom : ∀ (ts : List CNode), goodForest ts = true →
    ∀ (d : Nat) (fin : String) (fuel : Nat), forestCost ts ≤ fuel →
    parseItems fuel (itemsDom ts d fin) = encodeForest ts
  | [] => by
      intro _ d fin fuel _
      cases fuel <;> simp [itemsDom, parseItems, encodeForest]
  | t :: ts => by
      intro hg d fin fuel hf
      obtain ⟨ht, hts⟩ := goodForest_cons hg
      rw [show itemsDom (t :: ts) d fin =
          itemDomNodes t d (headSep ts d fin) ++ itemsDom ts d fin from by rw [itemsDom]]
      rw [show encodeForest (t :: ts) = encodeNode t :: encodeForest ts from by
        rw [encodeForest]]
      rw [forestCost] at hf
      cases t with
      | link n h a i =>
        rw [cnodeCost] at hf
        obtain ⟨f, rfl⟩ : ∃ f, fuel = f + 1 := ⟨fuel - 1, by omega⟩
        simp only [goodTree.eq_def, goodName, Bool.and_eq_true] at ht
        have hstrip : pyStrip n = n := by
          have hx := ht.1.1.1.1.2
          simpa [beq_iff_eq] using hx
        rw [itemDomNodes]
        simp only [List.cons_append, List.nil_append]
        simp [parseItems, parse_bookmark_link, linkContent, Node.childrenOf, Node.tagIs,
          findDirect, attrGet, List.lookup, optStr, getTextStrip, nodeStrings, forestStrings,
          join_single, hstrip, encodeNode,
          parse_itemsDom ts hts d fin f (by omega)]
      | folder n a m ptf cs =>
        rw [cnodeCost] at hf
        obtain ⟨f, rfl⟩ : ∃ f, fuel = f + 1 + 1 + 1 + 1 := ⟨fuel - 4, by omega⟩
        simp only [goodTree.eq_def, goodName, Bool.and_eq_true] at ht
        have hstrip : pyStrip n = n := by
          have hx := ht.1.1.1.1.1.1.2
          simpa [beq_iff_eq] using hx
        have hcs : goodForest cs = true := ht.2
        rw [itemDomNodes]
        simp only [List.cons_append, List.nil_append]
        cases ptf <;>
          simp [parseItems, parse_bookmark_folder, parse_bookmark_list, dtElemF,
            Node.childrenOf, Node.tagIs, findDirect, hAttrs, attrGet, hasAttr, List.lookup,
            optStr, getTextStrip, nodeStrings, forestStrings, join_single, hstrip, encodeNode,
            parse_itemsDom cs hcs (d + 1) ("\n" ++ ind d) f (by omega),
            parse_itemsDom ts hts d fin (f + 1) (by omega)]
  termination_by ts => sizeOf ts
  decreasing_by all_goals (simp_wf; try omega)

theorem parse_root (ts : List CNode) (hg : goodForest ts = true) (s fin : String) (fuel : Nat)
    (hf : forestCost ts + 2 ≤ fuel) :
    parse_bookmark_list fuel (.elem "dl" [] (.elem "p" [] [.text s] :: itemsDom ts 1 fin)) =
      encodeForest ts := by
  obtain ⟨f, rfl⟩ : ∃ f, fuel = f + 1 + 1 := ⟨fuel - 2, by omega⟩
  simp [parse_bookmark_list.eq_def, parseItems, Node.tagIs,
    parse_itemsDom ts hg 1 fin f (by omega)]

theorem html_roundtrip (ts : List CNode) (hg : goodForest ts = true) :
    html_to_json (renderDocument (.arr (encodeForest ts))) =
      jsonDumps (.arr (encodeForest ts)) 0 := by
  cases ts with
  | nil => rfl
  | cons c ts =>
    rw [html_to_json, soupParse_doc c ts hg]
    rw [bridge (c :: ts) 1 ⟨"p", [], []⟩ "\n"]
    rw [show pendElem ⟨"p", [], []⟩ (headSep (c :: ts) 1 "\n") =
        Node.elem "p" [] [.text (headSep (c :: ts) 1 "\n")] from rfl]
    have hf : forestCost (c :: ts) + 2 ≤
        nodeSize (.elem "dl" []
          (.elem "p" [] [.text (headSep (c :: ts) 1 "\n")] :: itemsDom (c :: ts) 1 "\n")) := by
      have hS := cost_le_sizeDom (c :: ts) 1 "\n"
      simp [nodeSize, forestSize]
      omega
    simp only [html_to_json_dom, findRootDl_doc]
    rw [parse_root (c :: ts) hg _ "\n" _ hf]

/-- C1 counterexample to the unrestricted claim: two trees in which every
optional attribute is present yet parsing the serialized markup does not
give back the tree.  First, a folder with zero children followed by a
sibling folder: the empty folder emits no nested list, so on re-parse
`find_next_sibling("dl")` reaches the second folder's list and both
folders claim its children.  Second, a link named `a<b`: the serializer
does not escape markup metacharacters, so the re-parsed name is truncated
to `a`. -/
theorem roundtrip_counterexample :
    (html_to_json (renderDocument (.arr (encodeForest
        [.folder "A" "1" "2" none [],
         .folder "B" "3" "4" none [.link "L" "http://x" "5" "6"]]))) ≠
      jsonDumps (.arr (encodeForest
        [.folder "A" "1" "2" none [],
         .folder "B" "3" "4" none [.link "L" "http://x" "5" "6"]])) 0) ∧
    (html_to_json (renderDocument (.arr (encodeForest [.link "a<b" "h" "1" "2"]))) ≠
      jsonDumps (.arr (encodeForest [.link "a<b" "h" "1" "2"])) 0) := by
  constructor <;> decide

/-- C1 (amended): for every bookmark tree whose strings are benign (no
markup metacharacter `<`, `"` or `&`), whose names are non-empty and
fixed by whitespace-stripping, and whose folders all have at least one
child, parsing the markup produced by serializing the tree yields
exactly the same tree: converting the serialized markup back to JSON
gives precisely the JSON dump of the original tree data. -/
theorem roundtrip_good_trees (ts : List CNode) (hg : goodForest ts = true) :
    html_to_json (renderDocument (.arr (encodeForest ts))) =
      jsonDumps (.arr (encodeForest ts)) 0 :=
  html_roundtrip ts hg

/-- Witness for C1 at a concrete two-level tree carrying every optional
attribute, including the toolbar flag. -/
theorem roundtrip_good_trees_witness :
    goodForest [.folder "F" "1" "2" (some "true") [.link "L" "http://x" "3" "4"]] = true ∧
    html_to_json (renderDocument (.arr (encodeForest
        [.folder "F" "1" "2" (some "true") [.link "L" "http://x" "3" "4"]]))) =
      jsonDumps (.arr (encodeForest
        [.folder "F" "1" "2" (some "true") [.link "L" "http://x" "3" "4"]])) 0 :=
  ⟨by decide, roundtrip_good_trees _ (by decide)⟩

end Bookmarks
